import Mathlib

/-!
Verification development for the DIM loadout-optimizer process module
(the armor set processing file of the loadout builder).

The module is embedded shallowly: the mutable state of the enumeration loop is
passed explicitly (`LoopState`), in-place array mutation (sorting and popping of
the caller-supplied candidate lists) is rendered by returning the final contents
of those lists, and the two external collaborators (the mod-compatibility
predicate and the mod-permutation generator) are function parameters.

Types and helpers that the module imports from files not included in the source
snapshot (`ProcessItem`, `statTier`, `getPower`, the comparator combinators and
the plug-category constants) are modelled from the specification; each such
definition carries a doc comment starting with `Modelled from the spec:`.
-/

set_option maxRecDepth 10000

/-- The six stat kinds, mirroring `StatTypes` of the source. -/
inductive StatTypes where
  | Mobility
  | Resilience
  | Recovery
  | Discipline
  | Intellect
  | Strength
deriving DecidableEq, Repr

/-- An ordered mapping from the six stat kinds to integers, mirroring the
object literals `{ [stat in StatTypes]: number }` of the source. -/
structure StatsT where
  Mobility : Int
  Resilience : Int
  Recovery : Int
  Discipline : Int
  Intellect : Int
  Strength : Int
deriving DecidableEq, Repr

/-- Reading `stats[statType]`. -/
def StatsT.get (s : StatsT) : StatTypes → Int
  | .Mobility => s.Mobility
  | .Resilience => s.Resilience
  | .Recovery => s.Recovery
  | .Discipline => s.Discipline
  | .Intellect => s.Intellect
  | .Strength => s.Strength

/-- Writing `stats[statType] = v`. -/
def StatsT.set (s : StatsT) (k : StatTypes) (v : Int) : StatsT :=
  match k with
  | .Mobility => { s with Mobility := v }
  | .Resilience => { s with Resilience := v }
  | .Recovery => { s with Recovery := v }
  | .Discipline => { s with Discipline := v }
  | .Intellect => { s with Intellect := v }
  | .Strength => { s with Strength := v }

/-- The `MinMax` record of the source (observed tier range of one stat). -/
structure MinMax where
  min : Int
  max : Int
deriving DecidableEq, Repr

/-- The `MinMaxIgnored` record of the source (per-stat filter bounds). -/
structure MinMaxIgnored where
  min : Int
  max : Int
  ignored : Bool
deriving DecidableEq, Repr

/-- The object literal `{ [stat in StatTypes]: MinMax }` of the source. -/
structure StatRangesT where
  Mobility : MinMax
  Resilience : MinMax
  Recovery : MinMax
  Discipline : MinMax
  Intellect : MinMax
  Strength : MinMax
deriving DecidableEq, Repr

/-- Reading `statRanges[statType]`. -/
def StatRangesT.get (r : StatRangesT) : StatTypes → MinMax
  | .Mobility => r.Mobility
  | .Resilience => r.Resilience
  | .Recovery => r.Recovery
  | .Discipline => r.Discipline
  | .Intellect => r.Intellect
  | .Strength => r.Strength

/-- Writing `statRanges[statType] = v`. -/
def StatRangesT.set (r : StatRangesT) (k : StatTypes) (v : MinMax) : StatRangesT :=
  match k with
  | .Mobility => { r with Mobility := v }
  | .Resilience => { r with Resilience := v }
  | .Recovery => { r with Recovery := v }
  | .Discipline => { r with Discipline := v }
  | .Intellect => { r with Intellect := v }
  | .Strength => { r with Strength := v }

/-- The object literal `{ [stat in StatTypes]: MinMaxIgnored }` of the source. -/
structure StatFiltersT where
  Mobility : MinMaxIgnored
  Resilience : MinMaxIgnored
  Recovery : MinMaxIgnored
  Discipline : MinMaxIgnored
  Intellect : MinMaxIgnored
  Strength : MinMaxIgnored
deriving DecidableEq, Repr

/-- Reading `statFilters[statType]`. -/
def StatFiltersT.get (f : StatFiltersT) : StatTypes → MinMaxIgnored
  | .Mobility => f.Mobility
  | .Resilience => f.Resilience
  | .Recovery => f.Recovery
  | .Discipline => f.Discipline
  | .Intellect => f.Intellect
  | .Strength => f.Strength

/-- Modelled from the spec: the per-stat hash table `statHashes` (imported from
`../types`, not in the source snapshot) mapping each stat kind to its numeric
item-stat hash. Only distinctness of the values matters to the module. -/
def statHashes : StatTypes → Nat
  | .Mobility => 2996146975
  | .Resilience => 392767087
  | .Recovery => 1943323491
  | .Discipline => 1735777505
  | .Intellect => 144602215
  | .Strength => 4244567218

/-- Modelled from the spec: the aggregate total-stat hash `TOTAL_STAT_HASH`
(imported from d2-known-values, not in the source snapshot). -/
def TOTAL_STAT_HASH : Nat := 3897883278

/-- A plugged item of a socket: its item hash and optional per-stat bonuses,
keyed by stat hash. Modelled from the spec: the `ProcessItem` socket/plug data
comes from `./types`, which is not in the source snapshot. -/
structure ProcessPlug where
  plugItemHash : Nat
  stats : Option (Nat → Int)

/-- One socket: optionally holds a plug. -/
structure ProcessSocket where
  plug : Option ProcessPlug

/-- One socket category: a style tag and the sockets it contains. -/
structure ProcessSocketCategory where
  categoryStyle : Nat
  sockets : List ProcessSocket

/-- The socket data of an item: the flat socket list and the categories. -/
structure ProcessSockets where
  sockets : List ProcessSocket
  categories : List ProcessSocketCategory

/-- Modelled from the spec: the `DestinySocketCategoryStyle.EnergyMeter` enum
constant of bungie-api-ts; only used as an equality token. -/
def EnergyMeterStyle : Nat := 5

/-- The energy record of a current-generation armor item. The source comment
says checking `item.energy` tells armor 2.0 apart and that the value can be 0,
so the field is an object whose presence (not its value) is the truthy test.
Modelled from the spec: optional energy-capacity indicator. -/
structure ProcessEnergy where
  val : Nat
  capacity : Nat
deriving DecidableEq, Repr

/-- An armor item as the process module sees it. Modelled from the spec: the
`ProcessItem` interface lives in `./types`, which is not in the source
snapshot; the fields are the ones the module reads. `equippingLabel` is a
string whose JS truthiness (non-emptiness) marks exotic exclusivity. -/
structure ProcessItem where
  id : String
  equippingLabel : String
  basePower : Nat
  baseStats : Nat → Int
  sockets : Option ProcessSockets
  energy : Option ProcessEnergy

/-- JS truthiness of `item.equippingLabel` (empty string is falsy). -/
def hasLabel (i : ProcessItem) : Bool := i.equippingLabel ≠ ""

/-- Modelled from the spec: `statTier` (imported from `../utils`, not in the
source snapshot); the glossary defines Tier as floor(stat value / 10). -/
def statTier (v : Int) : Int := Int.fdiv v 10

/-- Modelled from the spec: `getPower` (imported from `../utils`, not in the
source snapshot); the aggregate power value of a candidate set, used only as a
tie-break comparison, here the sum of the members powers. -/
def getPower (armor : List ProcessItem) : Nat :=
  armor.foldl (fun acc i => acc + i.basePower) 0

/-- Pointwise update of a stat table `baseStats[h] += d`. -/
def bumpStat (f : Nat → Int) (h : Nat) (d : Int) : Nat → Int :=
  fun x => if x = h then f x + d else f x

/-- The stat resolver `getStatValuesWithMWProcess` of the source (lines
411-454): per-stat values of one item including masterwork treatment, in the
requested stat-hash order, clamped to a minimum of 0. -/
def getStatValuesWithMWProcess (item : ProcessItem) (assumeMasterwork : Bool)
    (orderedStatValues : List Nat) : List Int :=
  let baseStats := item.baseStats
  let baseStats : Nat → Int :=
    match item.sockets with
    | none => baseStats
    | some sockets =>
      -- JS: `if (item.sockets && item.energy)`
      if item.energy.isSome then
        -- JS: `if (assumeMasterwork || item.energy)`; `item.energy` is the
        -- energy object itself and is truthy here, as the outer guard ensured.
        if assumeMasterwork || item.energy.isSome then
          orderedStatValues.foldl (fun f h => bumpStat f h 2) baseStats
        else
          -- the masterwork-socket branch of the source
          let masterworkSocketCategory :=
            sockets.categories.find? (fun c => c.categoryStyle = EnergyMeterStyle)
          let masterworkSocketHashes : List Nat :=
            match masterworkSocketCategory with
            | some cat => cat.sockets.filterMap (fun s => s.plug.map (·.plugItemHash))
            | none => []
          if masterworkSocketHashes ≠ [] then
            sockets.sockets.foldl (fun f socket =>
              match socket.plug with
              | none => f
              | some plug =>
                match plug.stats with
                | none => f
                | some plugStats =>
                  if plug.plugItemHash ∈ masterworkSocketHashes then
                    orderedStatValues.foldl (fun f2 h =>
                      if plugStats h ≠ 0 then bumpStat f2 h (plugStats h) else f2) f
                  else f) baseStats
          else baseStats
      else baseStats
  orderedStatValues.map (fun h => max (baseStats h) 0)

/-- Modelled from the spec: the stat resolver as section 4.1 words it. It
differs from the source in the inner test only: a flat +2 is applied when
masterwork is assumed or the item already reports non-zero energy capacity;
otherwise the plug bonuses of the energy-meter socket category are applied. -/
def getStatValuesSpec (item : ProcessItem) (assumeMasterwork : Bool)
    (orderedStatValues : List Nat) : List Int :=
  let baseStats := item.baseStats
  let baseStats : Nat → Int :=
    match item.sockets with
    | none => baseStats
    | some sockets =>
      if item.energy.isSome then
        if assumeMasterwork || (item.energy.map (·.val)).getD 0 ≠ 0 then
          orderedStatValues.foldl (fun f h => bumpStat f h 2) baseStats
        else
          let masterworkSocketCategory :=
            sockets.categories.find? (fun c => c.categoryStyle = EnergyMeterStyle)
          let masterworkSocketHashes : List Nat :=
            match masterworkSocketCategory with
            | some cat => cat.sockets.filterMap (fun s => s.plug.map (·.plugItemHash))
            | none => []
          if masterworkSocketHashes ≠ [] then
            sockets.sockets.foldl (fun f socket =>
              match socket.plug with
              | none => f
              | some plug =>
                match plug.stats with
                | none => f
                | some plugStats =>
                  if plug.plugItemHash ∈ masterworkSocketHashes then
                    orderedStatValues.foldl (fun f2 h =>
                      if plugStats h ≠ 0 then bumpStat f2 h (plugStats h) else f2) f
                  else f) baseStats
          else baseStats
      else baseStats
  orderedStatValues.map (fun h => max (baseStats h) 0)

/-- Lexicographic comparison of character lists by code point, mirroring the
ECMAScript relational comparison of strings (code-unit lexicographic; the
signature strings built by `process` are ASCII, where the two agree). -/
def jsCharListLt : List Char → List Char → Bool
  | _, [] => false
  | [], _ :: _ => true
  | a :: as, b :: bs =>
    if a.toNat < b.toNat then true
    else if b.toNat < a.toNat then false
    else jsCharListLt as bs

/-- The JS `<` on strings, as used by `insertIntoSetTracker` on stat-mix
signatures. -/
def jsStrLt (a b : String) : Bool := jsCharListLt a.data b.data

/-- An armor set before flattening (`IntermediateProcessArmorSet`): the five
items and the aggregated stat object. -/
structure IntermediateProcessArmorSet where
  armor : List ProcessItem
  stats : StatsT

/-- A returned armor set (`ProcessArmorSet`): item identifiers plus stats. -/
structure ProcessArmorSet where
  armor : List String
  stats : StatsT
deriving DecidableEq, Repr

/-- One signature group of the tracker: `{ statMix, armorSets }`. -/
structure StatMixEntry where
  statMix : String
  armorSets : List IntermediateProcessArmorSet

/-- One tier group of the tracker: `{ tier, statMixes }`. -/
structure TierEntry where
  tier : Int
  statMixes : List StatMixEntry

/-- The `SetTracker` type of the source: tier groups, each holding signature
groups, each holding armor sets. -/
abbrev SetTracker := List TierEntry

/-- Caps the maximum number of total armor sets returned (`RETURNED_ARMOR_SETS`,
line 27 of the source). -/
def RETURNED_ARMOR_SETS : Nat := 200

/-- The innermost loop of `insertIntoSetTracker` (lines 74-87): it runs at most
one iteration, comparing the new set only against the first member of the
signature group, and returns from the enclosing function; `none` means the
group was empty so the loop body never ran and control fell through. -/
def insertIntoArmorSets (armorSet : IntermediateProcessArmorSet) :
    List IntermediateProcessArmorSet → Option (List IntermediateProcessArmorSet)
  | [] => none
  | first :: rest =>
    if getPower armorSet.armor > getPower first.armor then
      some (armorSet :: first :: rest)
    else
      some ((first :: rest) ++ [armorSet])

/-- The middle loop of `insertIntoSetTracker` (lines 65-94) over the signature
groups of one tier group; `none` means the loop body never ran (empty group
list) and control fell through to the tier-level last-index check. -/
def insertIntoStatMixes (statMix : String) (armorSet : IntermediateProcessArmorSet) :
    List StatMixEntry → Option (List StatMixEntry)
  | [] => none
  | m :: rest =>
    if jsStrLt m.statMix statMix then
      some (⟨statMix, [armorSet]⟩ :: m :: rest)
    else if m.statMix = statMix then
      match insertIntoArmorSets armorSet m.armorSets with
      | some newSets => some (⟨m.statMix, newSets⟩ :: rest)
      | none =>
        -- the inner loop fell through (empty armorSets); the JS iteration then
        -- reaches the last-index check of the middle loop
        if rest.isEmpty then some [m, ⟨statMix, [armorSet]⟩]
        else (insertIntoStatMixes statMix armorSet rest).map (m :: ·)
    else
      if rest.isEmpty then some ((m :: rest) ++ [⟨statMix, [armorSet]⟩])
      else (insertIntoStatMixes statMix armorSet rest).map (m :: ·)

/-- The function `insertIntoSetTracker` of the source (lines 43-102): ordered
insertion of one armor set keyed by total tier and stat-mix signature. -/
def insertIntoSetTracker (tier : Int) (statMix : String)
    (armorSet : IntermediateProcessArmorSet) : SetTracker → SetTracker
  | [] => [⟨tier, [⟨statMix, [armorSet]⟩]⟩]
  | t :: rest =>
    if tier > t.tier then
      ⟨tier, [⟨statMix, [armorSet]⟩]⟩ :: t :: rest
    else if tier = t.tier then
      match insertIntoStatMixes statMix armorSet t.statMixes with
      | some newMixes => ⟨t.tier, newMixes⟩ :: rest
      | none =>
        if rest.isEmpty then (t :: rest) ++ [⟨tier, [⟨statMix, [armorSet]⟩]⟩]
        else t :: insertIntoSetTracker tier statMix armorSet rest
    else
      if rest.isEmpty then (t :: rest) ++ [⟨tier, [⟨statMix, [armorSet]⟩]⟩]
      else t :: insertIntoSetTracker tier statMix armorSet rest

/-- Eviction step on the signature groups of the last tier group (source lines
368-376): pop the last armor set of the last group, and drop the group when it
becomes empty. The empty case cannot be reached from `process`. -/
def evictFromMixes : List StatMixEntry → List StatMixEntry
  | [] => []
  | [mx] =>
    let remaining := mx.armorSets.dropLast
    if remaining.isEmpty then [] else [⟨mx.statMix, remaining⟩]
  | mx :: mx2 :: rest => mx :: evictFromMixes (mx2 :: rest)

/-- The eviction block of `process` (source lines 367-382): drop the globally
worst entry (last tier group, last signature group, last member), pruning empty
groups, and reset the tracked lowest tier when a whole tier group is dropped.
The source reads `setTracker[setTracker.length - 1].tier` after the pop and
would crash on an empty tracker; that state is unreachable (the tracker still
holds the cap of sets), and this rendering returns the input unchanged there. -/
def evictWorst : SetTracker → Int → SetTracker × Int
  | [], lowestTier => ([], lowestTier)
  | [te], lowestTier =>
    let newMixes := evictFromMixes te.statMixes
    if newMixes.isEmpty then ([], lowestTier)
    else ([⟨te.tier, newMixes⟩], lowestTier)
  | te :: te2 :: rest, lowestTier =>
    match evictWorst (te2 :: rest) lowestTier with
    | ([], _) => ([te], te.tier)
    | (tr, l) => (te :: tr, l)

/-- Flattening of the tracker (source line 389): `map` to the nested armor-set
lists and `flat(2)`. -/
def trackerFlatten (tr : SetTracker) : List IntermediateProcessArmorSet :=
  tr.flatMap (fun te => te.statMixes.flatMap (fun mx => mx.armorSets))

/-- Total number of armor sets held by the tracker. -/
def trackerCount (tr : SetTracker) : Nat :=
  (trackerFlatten tr).length

/-- Well-formedness the tracker keeps in every run: no empty signature group
and no empty tier group. -/
def trackerWF (tr : SetTracker) : Prop :=
  ∀ te ∈ tr, te.statMixes ≠ [] ∧ ∀ mx ∈ te.statMixes, mx.armorSets ≠ []

/-- Orderedness of the tracker as maintained by insertion: tier groups carry
strictly decreasing tiers, and the signature groups of each tier group carry
strictly decreasing signature strings. -/
def trackerSorted (tr : SetTracker) : Prop :=
  (tr.map (fun te => te.tier)).Pairwise (fun a b => a > b) ∧
    ∀ te ∈ tr, (te.statMixes.map (fun mx => mx.statMix)).Pairwise
      (fun a b => jsStrLt b a = true)

/-- Projection of the flattened tracker to its sort keys: total tier,
signature string, and set power. -/
def trackerKeys (tr : SetTracker) : List (Int × String × Nat) :=
  tr.flatMap (fun te => te.statMixes.flatMap (fun mx =>
    mx.armorSets.map (fun s => (te.tier, mx.statMix, getPower s.armor))))

/-- The order claimed for the returned sequence: total tier descending, then
signature descending (lexical), then power descending. -/
def specSetOrder (a b : Int × String × Nat) : Prop :=
  a.1 > b.1 ∨ (a.1 = b.1 ∧ (jsStrLt b.2.1 a.2.1 = true ∨ (a.2.1 = b.2.1 ∧ a.2.2 ≥ b.2.2)))

/-- Modelled from the spec: the comparator factory `compareBy` of
`../../utils/comparators` (not in the source snapshot); compares by a numeric
key, returning negative, zero or positive as a JS comparator does. -/
def compareBy (f : ProcessItem → Int) (a b : ProcessItem) : Int :=
  if f a < f b then -1 else if f b < f a then 1 else 0

/-- Modelled from the spec: `chainComparator` of `../../utils/comparators` (not
in the source snapshot); the first non-zero comparator value wins. -/
def chainComparator (cmps : List (ProcessItem → ProcessItem → Int))
    (a b : ProcessItem) : Int :=
  match cmps with
  | [] => 0
  | c :: rest => if c a b ≠ 0 then c a b else chainComparator rest a b

/-- The comparator factory `compareByStatOrder` of the source (lines 108-117):
first by negated sum of the considered stats, then by each considered stat
negated in order, then by the negated overall total stat. -/
def compareByStatOrder (orderedConsideredStatHashes : List Nat)
    (a b : ProcessItem) : Int :=
  chainComparator
    (compareBy (fun i => orderedConsideredStatHashes.foldl
        (fun acc h => acc + (-(i.baseStats h))) 0)
      :: (orderedConsideredStatHashes.map (fun h => compareBy (fun i => -(i.baseStats h)))
        ++ [compareBy (fun i => -(i.baseStats TOTAL_STAT_HASH))])) a b

/-- Stable insertion used to model `Array.prototype.sort`: the element is
placed before the first list member that does not compare strictly smaller. -/
def insertByCmp (cmp : ProcessItem → ProcessItem → Int) (x : ProcessItem) :
    List ProcessItem → List ProcessItem
  | [] => [x]
  | y :: ys => if cmp x y ≤ 0 then x :: y :: ys else y :: insertByCmp cmp x ys

/-- Modelled from the spec: JS `Array.prototype.sort(comparator)` as used on
the candidate lists. For the consistent comparators built by
`compareByStatOrder` the ECMAScript-mandated stable sort has a unique result,
rendered here as a stable insertion sort. -/
def sortByCmp (cmp : ProcessItem → ProcessItem → Int)
    (l : List ProcessItem) : List ProcessItem :=
  l.foldr (insertByCmp cmp) []

/-- A locked mod. Modelled from the spec: `ProcessMod` lives in `./types`, not
in the source snapshot; the module only routes mods by the map key and hands
them to the external predicate, so an identifying hash suffices. -/
structure ProcessMod where
  hash : Nat
deriving DecidableEq, Repr

/-- Modelled from the spec: `armor2PlugCategoryHashesByName.general` (imported
from d2-known-values, not in the source snapshot); an equality token. -/
def generalPlugCategoryHash : Nat := 2487827355

/-- Modelled from the spec: `raidPlugCategoryHashes` (imported from
`../types`, not in the source snapshot); membership tokens. -/
def raidPlugCategoryHashes : List Nat := [1180997867, 2109377735]

/-- Modelled from the spec: `knownModPlugCategoryHashes` (imported from
`../types`, not in the source snapshot); membership tokens, containing the
general and raid categories along with the slot-specific ones. -/
def knownModPlugCategoryHashes : List Nat :=
  [2487827355, 2912171003, 3422420680, 1180997867, 2109377735]

/-- The mod-partition loop of `process` (source lines 232-245): split the
locked-mod map entries into general, raid and other mods; known slot-specific
categories are dropped. -/
def partitionMods (lockedModMap : List (Nat × List ProcessMod)) :
    List ProcessMod × List ProcessMod × List ProcessMod :=
  lockedModMap.foldl (fun acc entry =>
    let g := acc.1
    let o := acc.2.1
    let r := acc.2.2
    if entry.1 = generalPlugCategoryHash then (g ++ entry.2, o, r)
    else if entry.1 ∈ raidPlugCategoryHashes then (g, o, r ++ entry.2)
    else if entry.1 ∉ knownModPlugCategoryHashes then (g, o ++ entry.2, r)
    else (g, o, r)) ([], [], [])

/-- The per-slot candidate lists (`ProcessItemsByBucket`, keyed in the source
by the `LockableBuckets` hashes, which live outside the snapshot). -/
structure ProcessItemsByBucket where
  helmet : List ProcessItem
  gauntlets : List ProcessItem
  chest : List ProcessItem
  leg : List ProcessItem
  classitem : List ProcessItem

/-- The combination ceiling `combosLimit` of the source (line 182). -/
def combosLimit : Nat := 2000000

/-- The trimming key (source line 196): total base stat of the last item of a
candidate list. On an empty list the source would crash reading
`l[l.length - 1].baseStats`; that state is unreachable while the combination
product exceeds the ceiling, and the rendering returns 0 there. -/
def lastTotalStat (l : List ProcessItem) : Int :=
  match l.getLast? with
  | some i => i.baseStats TOTAL_STAT_HASH
  | none => 0

/-- One iteration of the trimming loop (source lines 194-198): `_.minBy` over
the four non-class-item lists keyed by `lastTotalStat` (first minimum wins, as
in lodash), then `pop()` on the chosen list. -/
def trimStep (h g c l : List ProcessItem) :
    List ProcessItem × List ProcessItem × List ProcessItem × List ProcessItem :=
  let kh := lastTotalStat h
  let kg := lastTotalStat g
  let kc := lastTotalStat c
  let kl := lastTotalStat l
  if kg < kh then
    if kc < kg then
      if kl < kc then (h, g, c, l.dropLast) else (h, g, c.dropLast, l)
    else
      if kl < kg then (h, g, c, l.dropLast) else (h, g.dropLast, c, l)
  else
    if kc < kh then
      if kl < kc then (h, g, c, l.dropLast) else (h, g, c.dropLast, l)
    else
      if kl < kh then (h, g, c, l.dropLast) else (h.dropLast, g, c, l)

/-- The trimming loop of `process` (source lines 193-200), rendered with a fuel
argument: while the combination product exceeds the ceiling, pop the weakest
item. Every iteration removes one item from a nonempty list, so the total
number of items bounds the iteration count and `trimLists` below supplies that
bound as fuel; the fuel-exhausted arm is unreachable. -/
def trimLoop (fuel : Nat) (h g c l : List ProcessItem) (classLen : Nat) :
    List ProcessItem × List ProcessItem × List ProcessItem × List ProcessItem :=
  if h.length * g.length * c.length * l.length * classLen ≤ combosLimit then
    (h, g, c, l)
  else
    match fuel with
    | 0 => (h, g, c, l)
    | fuel2 + 1 =>
      match trimStep h g c l with
      | (h2, g2, c2, l2) => trimLoop fuel2 h2 g2 c2 l2 classLen

/-- The trimming loop with its sufficient fuel. -/
def trimLists (h g c l : List ProcessItem) (classLen : Nat) :
    List ProcessItem × List ProcessItem × List ProcessItem × List ProcessItem :=
  trimLoop (h.length + g.length + c.length + l.length) h g c l classLen

/-- One complete combination, one item per slot. -/
structure Combo where
  helm : ProcessItem
  gaunt : ProcessItem
  chest : ProcessItem
  leg : ProcessItem
  classItem : ProcessItem

/-- The five items of a combination in slot order (the `armor` array of the
source, line 272). -/
def Combo.armor (c : Combo) : List ProcessItem :=
  [c.helm, c.gaunt, c.chest, c.leg, c.classItem]

/-- The nested enumeration loops of `process` (source lines 252-270) as the
list of complete combinations they reach: the `continue` statements of the
exotic-exclusivity checks prune every combination of the corresponding
subtree. -/
def comboList (helms gaunts chests legs classItems : List ProcessItem) : List Combo :=
  helms.flatMap (fun helm =>
    gaunts.flatMap (fun gaunt =>
      if hasLabel helm && hasLabel gaunt then []
      else
        chests.flatMap (fun chest =>
          if hasLabel chest && (hasLabel helm || hasLabel gaunt) then []
          else
            legs.flatMap (fun leg =>
              if hasLabel leg && (hasLabel chest || hasLabel helm || hasLabel gaunt) then []
              else
                classItems.map (fun classItem => ⟨helm, gaunt, chest, leg, classItem⟩)))))

/-- The configuration the enumeration loop body closes over. -/
structure ProcessCfg where
  modStatTotals : StatsT
  statOrder : List StatTypes
  statFilters : StatFiltersT
  assumeMasterwork : Bool
  hasMods : Bool
  canTake : List ProcessItem → Bool

/-- The considered stats (source line 149): the stat order without ignored
stats. -/
def ProcessCfg.orderedConsideredStats (cfg : ProcessCfg) : List StatTypes :=
  cfg.statOrder.filter (fun k => !(cfg.statFilters.get k).ignored)

/-- The stat hashes in user order (source line 147). -/
def ProcessCfg.orderedStatHashes (cfg : ProcessCfg) : List Nat :=
  cfg.statOrder.map statHashes

/-- The stat accumulation of the enumeration body (source lines 284-292):
every stat of the item-stat vector is added to the running stats in the user
stat order. -/
def addStatsInOrder (s : StatsT) (order : List StatTypes) (vals : List Int) : StatsT :=
  (order.zip vals).foldl (fun acc kv => acc.set kv.1 (acc.get kv.1 + kv.2)) s

/-- Aggregate stats of a combination (source lines 276-292): the mod totals
plus each item's resolved stat vector. The source reads the vectors from a
per-item cache filled with `getStatValuesWithMWProcess`, a pure function, so
the cache lookup is rendered as the call itself. -/
def comboStats (cfg : ProcessCfg) (armor : List ProcessItem) : StatsT :=
  armor.foldl (fun acc item =>
    addStatsInOrder acc cfg.statOrder
      (getStatValuesWithMWProcess item cfg.assumeMasterwork cfg.orderedStatHashes))
    cfg.modStatTotals

/-- The outcome of the per-combination stat scan (source lines 296-327). -/
structure ScanResult where
  stats : StatsT
  ranges : StatRangesT
  tiers : String
  totalTier : Int
  exceeded : Bool

/-- The considered-stat loop of the enumeration body (source lines 300-327):
clamp each considered stat to 100, compute its tier, fold the tier into the
observed ranges, and stop at the first tier that violates its filter; the
signature string gets a comma after an entry whenever the entry index is below
the full stat-order length minus one. -/
def considerLoop (filters : StatFiltersT) (orderLen : Nat) :
    List StatTypes → Nat → StatsT → StatRangesT → String → Int → ScanResult
  | [], _, stats, ranges, tiers, total => ⟨stats, ranges, tiers, total, false⟩
  | k :: rest, index, stats, ranges, tiers, total =>
    let stats := if stats.get k > 100 then stats.set k 100 else stats
    let tier := statTier (stats.get k)
    let r := ranges.get k
    let ranges := if tier > r.max then ranges.set k ⟨r.min, tier⟩ else ranges
    let r2 := ranges.get k
    let ranges := if tier < r2.min then ranges.set k ⟨tier, r2.max⟩ else ranges
    let f := filters.get k
    if tier > f.max ∨ tier < f.min then ⟨stats, ranges, tiers, total, true⟩
    else
      let tiers := tiers ++ toString tier
      let total := total + tier
      let tiers := if index < orderLen - 1 then tiers ++ "," else tiers
      considerLoop filters orderLen rest (index + 1) stats ranges tiers total

/-- The stat scan of one combination, started as the source does. -/
def considerScan (cfg : ProcessCfg) (stats : StatsT) (ranges : StatRangesT) : ScanResult :=
  considerLoop cfg.statFilters cfg.statOrder.length cfg.orderedConsideredStats 0
    stats ranges "" 0

/-- The mutable state of the enumeration loop of `process`. -/
structure LoopState where
  setTracker : SetTracker
  lowestTier : Int
  setCount : Nat
  statRanges : StatRangesT

/-- The enumeration loop body of `process` (source lines 272-382) for one
complete combination: stat aggregation and scan, the tier bookkeeping with the
early-reject branch, the mod-compatibility check, ordered insertion and the
eviction that restores the cap. -/
def processCombo (cfg : ProcessCfg) (st : LoopState) (combo : Combo) : LoopState :=
  let armor := combo.armor
  let scan := considerScan cfg (comboStats cfg armor) st.statRanges
  if scan.exceeded then { st with statRanges := scan.ranges }
  else if scan.totalTier < st.lowestTier ∧ st.setCount > RETURNED_ARMOR_SETS then
    -- the `continue` of source line 338
    { st with statRanges := scan.ranges }
  else
    let lowestTier :=
      if scan.totalTier < st.lowestTier then scan.totalTier else st.lowestTier
    if cfg.hasMods && !cfg.canTake armor then
      { st with statRanges := scan.ranges, lowestTier := lowestTier }
    else
      let newTracker :=
        insertIntoSetTracker scan.totalTier scan.tiers ⟨armor, scan.stats⟩ st.setTracker
      let newCount := st.setCount + 1
      if newCount > RETURNED_ARMOR_SETS then
        let ev := evictWorst newTracker lowestTier
        ⟨ev.1, ev.2, newCount - 1, scan.ranges⟩
      else
        ⟨newTracker, lowestTier, newCount, scan.ranges⟩

/-- The enumeration loop body with the early-reject branch of source lines
334-340 removed (the tracked lowest tier is updated unconditionally when the
new total tier is lower). Used to state that the branch is dead. -/
def processComboNoSkip (cfg : ProcessCfg) (st : LoopState) (combo : Combo) : LoopState :=
  let armor := combo.armor
  let scan := considerScan cfg (comboStats cfg armor) st.statRanges
  if scan.exceeded then { st with statRanges := scan.ranges }
  else
    let lowestTier :=
      if scan.totalTier < st.lowestTier then scan.totalTier else st.lowestTier
    if cfg.hasMods && !cfg.canTake armor then
      { st with statRanges := scan.ranges, lowestTier := lowestTier }
    else
      let newTracker :=
        insertIntoSetTracker scan.totalTier scan.tiers ⟨armor, scan.stats⟩ st.setTracker
      let newCount := st.setCount + 1
      if newCount > RETURNED_ARMOR_SETS then
        let ev := evictWorst newTracker lowestTier
        ⟨ev.1, ev.2, newCount - 1, scan.ranges⟩
      else
        ⟨newTracker, lowestTier, newCount, scan.ranges⟩

/-- The invocations of the external mod-compatibility predicate
`canTakeSlotIndependantMods` made by the loop body for one combination (the
argument armor lists, in order). The predicate is an external collaborator, so
its call trace is part of the observable interface behavior; the body reaches
the call only when no earlier `continue` fired and `hasMods` holds (source
lines 344-354). -/
def processComboCalls (cfg : ProcessCfg) (st : LoopState) (combo : Combo) :
    List (List ProcessItem) :=
  let armor := combo.armor
  let scan := considerScan cfg (comboStats cfg armor) st.statRanges
  if scan.exceeded then []
  else if scan.totalTier < st.lowestTier ∧ st.setCount > RETURNED_ARMOR_SETS then []
  else if cfg.hasMods then [armor] else []

/-- The initial stat ranges (source lines 156-163): inverted for active stats,
fixed at 0..10 for ignored stats. -/
def initStatRanges (f : StatFiltersT) : StatRangesT where
  Mobility := if f.Mobility.ignored then ⟨0, 10⟩ else ⟨10, 0⟩
  Resilience := if f.Resilience.ignored then ⟨0, 10⟩ else ⟨10, 0⟩
  Recovery := if f.Recovery.ignored then ⟨0, 10⟩ else ⟨10, 0⟩
  Discipline := if f.Discipline.ignored then ⟨0, 10⟩ else ⟨10, 0⟩
  Intellect := if f.Intellect.ignored then ⟨0, 10⟩ else ⟨10, 0⟩
  Strength := if f.Strength.ignored then ⟨0, 10⟩ else ⟨10, 0⟩

/-- The enumeration fold of `process` (source lines 252-387): the loop body
applied over every reached combination, starting from the empty tracker,
lowest tier 100, zero count and the initial stat ranges. -/
def runEnumeration (step : ProcessCfg → LoopState → Combo → LoopState)
    (cfg : ProcessCfg) (helms gaunts chests legs classItems : List ProcessItem) :
    LoopState :=
  (comboList helms gaunts chests legs classItems).foldl (step cfg)
    ⟨[], 100, 0, initStatRanges cfg.statFilters⟩

/-- Result assembly `flattenSets` of the source (lines 456-461): replace each
item by its identifier. -/
def flattenSets (sets : List IntermediateProcessArmorSet) : List ProcessArmorSet :=
  sets.map (fun s => ⟨s.armor.map (fun i => i.id), s.stats⟩)

/-- The value `process` returns (`sets`, `combos`, `combosWithoutCaps` and the
optional `statRanges`). -/
structure ProcessResult where
  sets : List ProcessArmorSet
  combos : Nat
  combosWithoutCaps : Nat
  statRanges : Option StatRangesT
deriving Repr

/-- The full observable outcome of one `process` call: the returned record
fields, the final tracker whose flattening (line 389) the returned sets are
assembled from, and the final contents of the caller-supplied candidate lists,
which `process` sorts in place and pops during cap trimming. -/
structure ProcessOutput where
  sets : List ProcessArmorSet
  combos : Nat
  combosWithoutCaps : Nat
  statRanges : Option StatRangesT
  finalTracker : SetTracker
  finalItems : ProcessItemsByBucket

/-- The body of `process` (source lines 124-406), parameterized by the loop
body so the dead-branch variant can reuse it; the two external collaborators
`generateModPermutations` and `canTakeSlotIndependantMods` are function
parameters. -/
def processWithStep (step : ProcessCfg → LoopState → Combo → LoopState)
    (filteredItems : ProcessItemsByBucket) (modStatTotals : StatsT)
    (lockedModMap : List (Nat × List ProcessMod)) (assumeMasterwork : Bool)
    (statOrder : List StatTypes) (statFilters : StatFiltersT)
    (generateModPermutations : List ProcessMod → List (List ProcessMod))
    (canTakeSlotIndependantMods :
      List (List ProcessMod) → List (List ProcessMod) → List (List ProcessMod) →
        List ProcessItem → Bool) : ProcessOutput :=
  let orderedConsideredStats := statOrder.filter (fun k => !(statFilters.get k).ignored)
  let orderedConsideredStatHashes := orderedConsideredStats.map statHashes
  let statRanges := initStatRanges statFilters
  let itemComparator := compareByStatOrder orderedConsideredStatHashes
  let helms := sortByCmp itemComparator filteredItems.helmet
  let gaunts := sortByCmp itemComparator filteredItems.gauntlets
  let chests := sortByCmp itemComparator filteredItems.chest
  let legs := sortByCmp itemComparator filteredItems.leg
  let classItems := sortByCmp itemComparator filteredItems.classitem
  let combosWithoutCaps :=
    helms.length * gaunts.length * chests.length * legs.length * classItems.length
  match trimLists helms gaunts chests legs classItems.length with
  | (helms, gaunts, chests, legs) =>
  let combos :=
    helms.length * gaunts.length * chests.length * legs.length * classItems.length
  let finalItems : ProcessItemsByBucket := ⟨helms, gaunts, chests, legs, classItems⟩
  if combos = 0 then
    { sets := [], combos := 0, combosWithoutCaps := 0, statRanges := none,
      finalTracker := [], finalItems := finalItems }
  else
    let mods := partitionMods lockedModMap
    let generalMods := mods.1
    let otherMods := mods.2.1
    let raidMods := mods.2.2
    let generalModsPermutations := generateModPermutations generalMods
    let otherModPermutations := generateModPermutations otherMods
    let raidModPermutations := generateModPermutations raidMods
    let hasMods := !otherMods.isEmpty || !raidMods.isEmpty || !generalMods.isEmpty
    let cfg : ProcessCfg :=
      ⟨modStatTotals, statOrder, statFilters, assumeMasterwork, hasMods,
        fun armor => canTakeSlotIndependantMods generalModsPermutations
          otherModPermutations raidModPermutations armor⟩
    let finalState := runEnumeration step cfg helms gaunts chests legs classItems
    { sets := flattenSets (trackerFlatten finalState.setTracker),
      combos := combos, combosWithoutCaps := combosWithoutCaps,
      statRanges := some finalState.statRanges,
      finalTracker := finalState.setTracker, finalItems := finalItems }

/-- The function `process` of the source with its full observable outcome. -/
def processFull (filteredItems : ProcessItemsByBucket) (modStatTotals : StatsT)
    (lockedModMap : List (Nat × List ProcessMod)) (assumeMasterwork : Bool)
    (statOrder : List StatTypes) (statFilters : StatFiltersT)
    (generateModPermutations : List ProcessMod → List (List ProcessMod))
    (canTakeSlotIndependantMods :
      List (List ProcessMod) → List (List ProcessMod) → List (List ProcessMod) →
        List ProcessItem → Bool) : ProcessOutput :=
  processWithStep processCombo filteredItems modStatTotals lockedModMap
    assumeMasterwork statOrder statFilters generateModPermutations
    canTakeSlotIndependantMods

/-- The returned record of `process` (source line 405 and the early return of
line 213). -/
def process (filteredItems : ProcessItemsByBucket) (modStatTotals : StatsT)
    (lockedModMap : List (Nat × List ProcessMod)) (assumeMasterwork : Bool)
    (statOrder : List StatTypes) (statFilters : StatFiltersT)
    (generateModPermutations : List ProcessMod → List (List ProcessMod))
    (canTakeSlotIndependantMods :
      List (List ProcessMod) → List (List ProcessMod) → List (List ProcessMod) →
        List ProcessItem → Bool) : ProcessResult :=
  let o := processFull filteredItems modStatTotals lockedModMap assumeMasterwork
    statOrder statFilters generateModPermutations canTakeSlotIndependantMods
  ⟨o.sets, o.combos, o.combosWithoutCaps, o.statRanges⟩

/-- Number of members of a candidate set carrying a non-empty exclusivity
label. -/
def labeledCount (armor : List ProcessItem) : Nat :=
  (armor.filter (fun i => hasLabel i)).length

/-- The product of the five candidate-list lengths of a bucket record. -/
def bucketProduct (fi : ProcessItemsByBucket) : Nat :=
  fi.helmet.length * fi.gauntlets.length * fi.chest.length * fi.leg.length *
    fi.classitem.length

/-- The candidate lists as they stand after the pre-enumeration phase of
`process`: sorted by the stat-order comparator and cap-trimmed. This is also
the final content of the caller-supplied arrays, which the source mutates in
place. -/
def postTrimLists (fi : ProcessItemsByBucket) (statOrder : List StatTypes)
    (statFilters : StatFiltersT) : ProcessItemsByBucket :=
  let orderedConsideredStatHashes :=
    (statOrder.filter (fun k => !(statFilters.get k).ignored)).map statHashes
  let itemComparator := compareByStatOrder orderedConsideredStatHashes
  let helms := sortByCmp itemComparator fi.helmet
  let gaunts := sortByCmp itemComparator fi.gauntlets
  let chests := sortByCmp itemComparator fi.chest
  let legs := sortByCmp itemComparator fi.leg
  let classItems := sortByCmp itemComparator fi.classitem
  match trimLists helms gaunts chests legs classItems.length with
  | (helmsT, gauntsT, chestsT, legsT) => ⟨helmsT, gauntsT, chestsT, legsT, classItems⟩

/-- One update of the observed ranges with an evaluated (stat, tier) pair,
exactly as the considered-stat loop performs it (source lines 310-315). -/
def rangeUpd (r : StatRangesT) (p : StatTypes × Int) : StatRangesT :=
  let cur := r.get p.1
  let r2 := if p.2 > cur.max then r.set p.1 ⟨cur.min, p.2⟩ else r
  let cur2 := r2.get p.1
  if p.2 < cur2.min then r2.set p.1 ⟨p.2, cur2.max⟩ else r2

/-- The (stat, tier) pairs the fail-fast stat scan evaluates: the considered
stats in priority order up to and including the first whose tier violates its
filter; the clamping of the running stats is threaded exactly as in the
scan. -/
def scanEvalTiers (filters : StatFiltersT) :
    List StatTypes → StatsT → List (StatTypes × Int)
  | [], _ => []
  | k :: rest, stats =>
    let stats := if stats.get k > 100 then stats.set k 100 else stats
    let tier := statTier (stats.get k)
    let f := filters.get k
    if tier > f.max ∨ tier < f.min then [(k, tier)]
    else (k, tier) :: scanEvalTiers filters rest stats

/-- The (stat, tier) pairs one combination contributes to the observed
ranges. -/
def comboEvalTiers (modTot : StatsT) (order : List StatTypes)
    (filters : StatFiltersT) (amw : Bool) (combo : Combo) :
    List (StatTypes × Int) :=
  scanEvalTiers filters (order.filter (fun k => !(filters.get k).ignored))
    (combo.armor.foldl (fun acc item =>
      addStatsInOrder acc order
        (getStatValuesWithMWProcess item amw (order.map statHashes))) modTot)

/-- A stat table that is zero everywhere. -/
def zeroStats : StatsT := ⟨0, 0, 0, 0, 0, 0⟩

/-- A socketless unlabeled item whose only non-zero base stat is the overall
total. -/
def plainItem (id : String) (power : Nat) (total : Int) : ProcessItem :=
  ⟨id, "", power, fun h => if h = TOTAL_STAT_HASH then total else 0, none, none⟩

/-- A socketless unlabeled item whose only non-zero base stat is Mobility. -/
def mobItem (id : String) (mob : Int) : ProcessItem :=
  ⟨id, "", 0, fun h => if h = statHashes .Mobility then mob else 0, none, none⟩

/-- A filter that ignores its stat. -/
def ignoredFilter : MinMaxIgnored := ⟨0, 10, true⟩

/-- Filters ignoring every stat. -/
def allIgnored : StatFiltersT :=
  ⟨ignoredFilter, ignoredFilter, ignoredFilter, ignoredFilter, ignoredFilter,
    ignoredFilter⟩

/-- The canonical full stat order. -/
def statOrderAll : List StatTypes :=
  [.Mobility, .Resilience, .Recovery, .Discipline, .Intellect, .Strength]

/-- A trivial mod-permutation generator for concrete runs. -/
def onePermutation : List ProcessMod → List (List ProcessMod) := fun _ => [[]]

/-- An always-true mod-compatibility predicate for concrete runs. -/
def alwaysCompatible : List (List ProcessMod) → List (List ProcessMod) →
    List (List ProcessMod) → List ProcessItem → Bool := fun _ _ _ _ => true

/-- One unlabeled zero-stat candidate per slot. -/
def oneEachBucket : ProcessItemsByBucket :=
  ⟨[plainItem "h" 0 0], [plainItem "g" 0 0], [plainItem "c" 0 0],
    [plainItem "l" 0 0], [plainItem "ci" 0 0]⟩

/-- Input refuting the power ordering of the returned sequence: three helmets
of identical stats but powers 10, 5, 7 (in caller order); every stat ignored,
so all three combinations share total tier 0 and signature. -/
def powerMixBucket : ProcessItemsByBucket :=
  ⟨[plainItem "h10" 10 0, plainItem "h5" 5 0, plainItem "h7" 7 0],
    [plainItem "g" 0 0], [plainItem "c" 0 0], [plainItem "l" 0 0],
    [plainItem "ci" 0 0]⟩

/-- Filters for the range counterexample: Mobility considered with tier bounds
0..0, everything else ignored. -/
def mobZeroFilters : StatFiltersT :=
  ⟨⟨0, 0, false⟩, ignoredFilter, ignoredFilter, ignoredFilter, ignoredFilter,
    ignoredFilter⟩

/-- Input for the range counterexample: the single helmet has Mobility 30,
tier 3, violating the 0..0 Mobility filter. -/
def mobThirtyBucket : ProcessItemsByBucket :=
  ⟨[mobItem "h" 30], [plainItem "g" 0 0], [plainItem "c" 0 0],
    [plainItem "l" 0 0], [plainItem "ci" 0 0]⟩

/-- Mod totals for the clamping counterexample: 150 Mobility from mods. -/
def mobHeavyModTotals : StatsT := ⟨150, 0, 0, 0, 0, 0⟩

/-- Filters for the clamping counterexample: Mobility ignored, all other stats
considered with the full 0..10 tier window. -/
def mobIgnoredFilters : StatFiltersT :=
  ⟨ignoredFilter, ⟨0, 10, false⟩, ⟨0, 10, false⟩, ⟨0, 10, false⟩,
    ⟨0, 10, false⟩, ⟨0, 10, false⟩⟩

/-- The per-stat bonus table of the masterwork plug of the resolver
counterexample: +5 Mobility. -/
def mwPlugStats : Nat → Int := fun h => if h = statHashes .Mobility then 5 else 0

/-- A socket plugged with the masterwork plug (hash 77). -/
def mwSocket : ProcessSocket := ⟨some ⟨77, some mwPlugStats⟩⟩

/-- The resolver counterexample item: all base stats 1, an energy-meter socket
category holding the masterwork plug, and a defined energy object with value
and capacity 0 (an unmasterworked current-generation item). -/
def mwItem : ProcessItem :=
  ⟨"x", "", 0, fun _ => 1, some ⟨[mwSocket], [⟨EnergyMeterStyle, [mwSocket]⟩]⟩,
    some ⟨0, 0⟩⟩

/-- Input whose pre-trim combination product 1·38·38·38·38 = 2085136 exceeds
the ceiling and whose single helmet has the weakest last item, so trimming
empties the helmet list and the post-trim product is zero. -/
def trimToEmptyBucket : ProcessItemsByBucket :=
  ⟨[plainItem "wh" 0 1], List.replicate 38 (plainItem "g" 0 10),
    List.replicate 38 (plainItem "c" 0 10),
    List.replicate 38 (plainItem "l" 0 10),
    List.replicate 38 (plainItem "ci" 0 10)⟩

/-- Input for the mutation theorem: 38 weak helmets (trimmed away entirely)
and a gauntlet list whose weakest item comes first in caller order, so the
in-place sort reorders it. -/
def mutationBucket : ProcessItemsByBucket :=
  ⟨List.replicate 38 (plainItem "wh" 0 1),
    [plainItem "gw" 0 5] ++ List.replicate 37 (plainItem "gs" 0 10),
    List.replicate 38 (plainItem "c" 0 10),
    List.replicate 38 (plainItem "l" 0 10),
    List.replicate 38 (plainItem "ci" 0 10)⟩

/-- Filters for the early-reject counterexample: Mobility considered with the
full window, everything else ignored. -/
def earlyRejectFilters : StatFiltersT :=
  ⟨⟨0, 10, false⟩, ignoredFilter, ignoredFilter, ignoredFilter, ignoredFilter,
    ignoredFilter⟩

/-- A member of the saturated tracker of the early-reject counterexample. -/
def earlyRejectSet : IntermediateProcessArmorSet :=
  ⟨[plainItem "a" 0 0], ⟨50, 0, 0, 0, 0, 0⟩⟩

/-- A tracker holding exactly the cap of 200 sets, all at total tier 5. -/
def earlyRejectTracker : SetTracker :=
  [⟨5, [⟨"5", List.replicate 200 earlyRejectSet⟩]⟩]

/-- The loop state of the early-reject counterexample: the tracker holds the
cap of sets and the tracked worst tier is 5. -/
def earlyRejectState : LoopState :=
  ⟨earlyRejectTracker, 5, 200, initStatRanges earlyRejectFilters⟩

/-- The configuration of the early-reject counterexample: locked mods present
and an always-true predicate. -/
def earlyRejectCfg : ProcessCfg :=
  ⟨zeroStats, statOrderAll, earlyRejectFilters, false, true, fun _ => true⟩

/-- The combination of the early-reject counterexample: total tier 3, lower
than the tracked worst tier 5. -/
def earlyRejectCombo : Combo :=
  ⟨mobItem "h" 30, plainItem "g" 0 0, plainItem "c" 0 0, plainItem "l" 0 0,
    plainItem "ci" 0 0⟩

/-- The process body with the dead early-reject branch removed. -/
def processNoSkipFull (filteredItems : ProcessItemsByBucket) (modStatTotals : StatsT)
    (lockedModMap : List (Nat × List ProcessMod)) (assumeMasterwork : Bool)
    (statOrder : List StatTypes) (statFilters : StatFiltersT)
    (generateModPermutations : List ProcessMod → List (List ProcessMod))
    (canTakeSlotIndependantMods :
      List (List ProcessMod) → List (List ProcessMod) → List (List ProcessMod) →
        List ProcessItem → Bool) : ProcessOutput :=
  processWithStep processComboNoSkip filteredItems modStatTotals lockedModMap
    assumeMasterwork statOrder statFilters generateModPermutations
    canTakeSlotIndependantMods

/-- The armor sets of a list of signature groups, in order. -/
def mixesSets (mixes : List StatMixEntry) : List IntermediateProcessArmorSet :=
  mixes.flatMap (fun mx => mx.armorSets)

/-- The loop invariant of the enumeration: the counter matches the tracker
content, the tracker is well-formed and sorted, the cap holds at every
combination boundary, and every held set satisfies `P`. -/
def StInv (P : IntermediateProcessArmorSet → Prop) (st : LoopState) : Prop :=
  st.setCount = trackerCount st.setTracker ∧
  trackerWF st.setTracker ∧
  st.setCount ≤ RETURNED_ARMOR_SETS ∧
  trackerSorted st.setTracker ∧
  ∀ x ∈ trackerFlatten st.setTracker, P x

instance : DecidableRel specSetOrder := fun a b =>
  inferInstanceAs (Decidable (a.1 > b.1 ∨
    (a.1 = b.1 ∧ (jsStrLt b.2.1 a.2.1 = true ∨ (a.2.1 = b.2.1 ∧ a.2.2 ≥ b.2.2)))))

/-- Claim C2, counterexample: with three helmets of identical stats and powers
10, 5, 7 (all stats ignored, so one shared tier and signature group), the
returned sequence carries powers 10, 5, 7 — the claimed total order (tier
descending, then signature descending, then power descending) fails between
the second and third set. -/
theorem claim_C2_counterexample :
    ¬ List.Pairwise specSetOrder
      (trackerKeys (processFull powerMixBucket zeroStats [] false statOrderAll
        allIgnored onePermutation alwaysCompatible).finalTracker) := by
  have hkeys : trackerKeys (processFull powerMixBucket zeroStats [] false
      statOrderAll allIgnored onePermutation alwaysCompatible).finalTracker =
      [(0, "", 10), (0, "", 5), (0, "", 7)] := by decide
  rw [hkeys]
  intro h
  have h2 := (List.pairwise_cons.mp (List.pairwise_cons.mp h).2).1 (0, "", 7)
    (by simp)
  exact absurd h2 (by decide)

/-- Claim C3, evaluation at the failing input: an unmasterworked
current-generation item (defined energy object with value 0) whose
energy-meter socket holds a plug granting +5 Mobility, all base stats 1. The
code takes the flat +2 branch, returning 3 for both requested stats, while the
algorithm the claim describes (`getStatValuesSpec`) applies the plug bonuses,
returning 6 and 1: the plug-based branch of the code is unreachable because
the inner test `assumeMasterwork || item.energy` re-checks the energy object
the outer guard already proved truthy. -/
theorem claim_C3_dead_plug_branch :
    getStatValuesWithMWProcess mwItem false
        [statHashes .Mobility, statHashes .Strength] = [3, 3] ∧
      getStatValuesSpec mwItem false
        [statHashes .Mobility, statHashes .Strength] = [6, 1] := by
  decide

/-- Claim C5, counterexample: the single combination has Mobility tier 3,
violating its 0..0 Mobility filter, yet the returned Mobility range is
{min 3, max 3} — the out-of-bounds tier was folded into the observed range
(the update precedes the filter check in source lines 310-319). -/
theorem claim_C5_counterexample :
    (process mobThirtyBucket zeroStats [] false statOrderAll mobZeroFilters
        onePermutation alwaysCompatible).statRanges =
      some ⟨⟨3, 3⟩, ⟨0, 10⟩, ⟨0, 10⟩, ⟨0, 10⟩, ⟨0, 10⟩, ⟨0, 10⟩⟩ ∧
      (mobZeroFilters.get .Mobility).ignored = false ∧
      (3 : Int) > (mobZeroFilters.get .Mobility).max := by
  decide

/-- Claim C6, counterexample: a state whose tracker holds exactly the cap of
200 sets (worst retained tier 5) and a combination of total tier 3 < 5, with
locked mods present. The claim says the combination is skipped entirely with
no consultation of the mod-compatibility predicate, but the loop body invokes
the predicate once: the skip branch demands a set count strictly above the
cap, which eviction never lets happen. -/
theorem claim_C6_counterexample :
    (considerScan earlyRejectCfg (comboStats earlyRejectCfg earlyRejectCombo.armor)
        earlyRejectState.statRanges).totalTier < earlyRejectState.lowestTier ∧
      earlyRejectState.setCount = RETURNED_ARMOR_SETS ∧
      trackerCount earlyRejectState.setTracker = RETURNED_ARMOR_SETS ∧
      (processComboCalls earlyRejectCfg earlyRejectState earlyRejectCombo).length = 1 := by
  decide

/-- Claim C7, counterexample: with Mobility ignored and 150 Mobility coming
from mods, the returned set reports Mobility 150 — only considered stats are
clamped to 100 (the clamp sits inside the considered-stat loop, source lines
300-306), so an ignored stat of a returned set can exceed 100. -/
theorem claim_C7_counterexample :
    (process oneEachBucket mobHeavyModTotals [] false statOrderAll
        mobIgnoredFilters onePermutation alwaysCompatible).sets =
      [⟨["h", "g", "c", "l", "ci"], ⟨150, 0, 0, 0, 0, 0⟩⟩] ∧
      (150 : Int) > 100 := by
  decide

set_option maxHeartbeats 8000000 in
/-- Claim C9, counterexample: the pre-trim product is 1·38·38·38·38 = 2085136,
trimming empties the helmet list (its single item is the weakest), and the
zero-combination early return then reports `combosWithoutCaps` as 0 rather
than the pre-trim product. -/
theorem claim_C9_counterexample :
    (process trimToEmptyBucket zeroStats [] false statOrderAll allIgnored
        onePermutation alwaysCompatible).combosWithoutCaps = 0 ∧
      bucketProduct trimToEmptyBucket = 2085136 := by
  decide

set_option maxHeartbeats 8000000 in
/-- Claim C10: the caller-supplied candidate lists are mutated. On
`mutationBucket` the call leaves the helmet list empty (its 38 items were all
popped by cap trimming) and leaves the gauntlet list reordered by the in-place
sort (the weakest gauntlet moves from the front to the back), as witnessed by
the final list contents the embedding returns. -/
theorem claim_C10_mutation :
    (processFull mutationBucket zeroStats [] false statOrderAll allIgnored
        onePermutation alwaysCompatible).finalItems.helmet.length = 0 ∧
      mutationBucket.helmet.length = 38 ∧
      ((processFull mutationBucket zeroStats [] false statOrderAll allIgnored
        onePermutation alwaysCompatible).finalItems.gauntlets.map
          (fun i => i.id)).head? = some "gs" ∧
      (mutationBucket.gauntlets.map (fun i => i.id)).head? = some "gw" ∧
      (processFull mutationBucket zeroStats [] false statOrderAll allIgnored
        onePermutation alwaysCompatible).finalItems.gauntlets.map (fun i => i.id) ≠
        mutationBucket.gauntlets.map (fun i => i.id) := by
  decide

theorem statsGetSetSelf (s : StatsT) (k : StatTypes) (v : Int) :
    (s.set k v).get k = v := by
  cases k <;> rfl

theorem statsGetSetOther (s : StatsT) (k k2 : StatTypes) (v : Int)
    (h : k2 ≠ k) : (s.set k v).get k2 = s.get k2 := by
  cases k <;> cases k2 <;> first | rfl | exact absurd rfl h

theorem rangesGetSetSelf (r : StatRangesT) (k : StatTypes) (v : MinMax) :
    (r.set k v).get k = v := by
  cases k <;> rfl

theorem rangesGetSetOther (r : StatRangesT) (k k2 : StatTypes) (v : MinMax)
    (h : k2 ≠ k) : (r.set k v).get k2 = r.get k2 := by
  cases k <;> cases k2 <;> first | rfl | exact absurd rfl h

theorem jsCharListLt_irrefl : ∀ (a : List Char), jsCharListLt a a = false := by
  intro a
  induction a with
  | nil => rfl
  | cons x xs ih => simp [jsCharListLt, ih]

theorem jsCharListLt_trans : ∀ (a b c : List Char),
    jsCharListLt a b = true → jsCharListLt b c = true → jsCharListLt a c = true := by
  intro a
  induction a with
  | nil =>
    intro b c hab hbc
    cases c with
    | nil =>
      cases b with
      | nil => simp [jsCharListLt] at hab
      | cons y ys => simp [jsCharListLt] at hbc
    | cons z zs => simp [jsCharListLt]
  | cons x xs ih =>
    intro b c hab hbc
    cases b with
    | nil => simp [jsCharListLt] at hab
    | cons y ys =>
      cases c with
      | nil => simp [jsCharListLt] at hbc
      | cons z zs =>
        simp only [jsCharListLt] at hab hbc ⊢
        by_cases h1 : x.toNat < y.toNat
        · by_cases h2 : y.toNat < z.toNat
          · simp [Nat.lt_trans h1 h2]
          · by_cases h3 : z.toNat < y.toNat
            · simp [h2, h3] at hbc
            · have hyz : y.toNat = z.toNat :=
                Nat.le_antisymm (Nat.not_lt.mp h3) (Nat.not_lt.mp h2)
              have hx : x.toNat < z.toNat := hyz ▸ h1
              simp [hx]
        · by_cases h4 : y.toNat < x.toNat
          · simp [h1, h4] at hab
          · have hxy : x.toNat = y.toNat :=
              Nat.le_antisymm (Nat.not_lt.mp h4) (Nat.not_lt.mp h1)
            simp only [h1, h4, if_neg, if_false] at hab
            by_cases h2 : y.toNat < z.toNat
            · have hx : x.toNat < z.toNat := hxy ▸ h2
              simp [hx]
            · by_cases h3 : z.toNat < y.toNat
              · simp [h2, h3] at hbc
              · have hyz : y.toNat = z.toNat :=
                  Nat.le_antisymm (Nat.not_lt.mp h3) (Nat.not_lt.mp h2)
                have hxz : ¬ x.toNat < z.toNat := by omega
                have hzx : ¬ z.toNat < x.toNat := by omega
                simp only [h2, h3, if_false] at hbc
                simp [hxz, hzx, ih ys zs hab hbc]

theorem jsCharListLt_total : ∀ (a b : List Char),
    jsCharListLt a b = true ∨ a = b ∨ jsCharListLt b a = true := by
  intro a
  induction a with
  | nil =>
    intro b
    cases b with
    | nil => simp
    | cons y ys => simp [jsCharListLt]
  | cons x xs ih =>
    intro b
    cases b with
    | nil => simp [jsCharListLt]
    | cons y ys =>
      by_cases h1 : x.toNat < y.toNat
      · simp [jsCharListLt, h1]
      · by_cases h2 : y.toNat < x.toNat
        · simp [jsCharListLt, h1, h2]
        · have hxy : x = y := by
            apply Char.ext
            apply UInt32.ext
            exact Nat.le_antisymm (Nat.not_lt.mp h2) (Nat.not_lt.mp h1)
          rcases ih ys with h | h | h
          · left; simp [jsCharListLt, h1, h2, h]
          · right; left; rw [hxy, h]
          · right; right; simp [jsCharListLt, hxy, jsCharListLt_irrefl, h]

theorem jsStrLt_trans (a b c : String) (h1 : jsStrLt a b = true)
    (h2 : jsStrLt b c = true) : jsStrLt a c = true :=
  jsCharListLt_trans a.data b.data c.data h1 h2

theorem jsStrLt_total (a b : String) :
    jsStrLt a b = true ∨ a = b ∨ jsStrLt b a = true := by
  rcases jsCharListLt_total a.data b.data with h | h | h
  · exact Or.inl h
  · refine Or.inr (Or.inl ?_)
    cases a
    cases b
    exact congrArg String.mk (by simpa using h)
  · exact Or.inr (Or.inr h)

theorem insertIntoArmorSets_none (s : IntermediateProcessArmorSet)
    (sets : List IntermediateProcessArmorSet)
    (h : insertIntoArmorSets s sets = none) : sets = [] := by
  cases sets with
  | nil => rfl
  | cons a as =>
    simp only [insertIntoArmorSets] at h
    split at h <;> simp at h

theorem insertIntoArmorSets_some (s : IntermediateProcessArmorSet)
    (sets out : List IntermediateProcessArmorSet)
    (h : insertIntoArmorSets s sets = some out) :
    out.length = sets.length + 1 ∧ (∀ x ∈ out, x = s ∨ x ∈ sets) ∧ out ≠ [] := by
  cases sets with
  | nil => simp [insertIntoArmorSets] at h
  | cons a as =>
    simp only [insertIntoArmorSets] at h
    split at h <;> rw [Option.some_inj] at h <;> subst h
    · refine ⟨by simp, ?_, by simp⟩
      intro x hx
      rcases List.mem_cons.mp hx with h | h
      · exact Or.inl h
      · exact Or.inr (by simpa using h)
    · refine ⟨by simp, ?_, by simp⟩
      intro x hx
      rcases List.mem_append.mp hx with h | h
      · exact Or.inr h
      · exact Or.inl (by simpa using h)

@[simp] theorem mixesSets_nil : mixesSets [] = [] := rfl

@[simp] theorem mixesSets_cons (mx : StatMixEntry) (rest : List StatMixEntry) :
    mixesSets (mx :: rest) = mx.armorSets ++ mixesSets rest := by
  simp [mixesSets]

@[simp] theorem mixesSets_append (a b : List StatMixEntry) :
    mixesSets (a ++ b) = mixesSets a ++ mixesSets b := by
  simp [mixesSets]

theorem insertIntoStatMixes_none (m : String) (s : IntermediateProcessArmorSet) :
    ∀ (mixes : List StatMixEntry), insertIntoStatMixes m s mixes = none →
      mixes = [] := by
  intro mixes
  induction mixes with
  | nil => intro h2; rfl
  | cons mx rest ih =>
    intro h
    simp only [insertIntoStatMixes] at h
    split at h
    · simp at h
    · split at h
      · split at h
        · simp at h
        · split at h
          · simp at h
          · rw [Option.map_eq_none'] at h
            have := ih h
            subst this
            simp_all
      · split at h
        · simp at h
        · rw [Option.map_eq_none'] at h
          have := ih h
          subst this
          simp_all

theorem insertIntoStatMixes_some (m : String) (s : IntermediateProcessArmorSet) :
    ∀ (mixes out : List StatMixEntry), insertIntoStatMixes m s mixes = some out →
      (mixesSets out).length = (mixesSets mixes).length + 1 ∧
      (∀ x ∈ mixesSets out, x = s ∨ x ∈ mixesSets mixes) ∧
      ((∀ mx ∈ mixes, mx.armorSets ≠ []) → ∀ mx ∈ out, mx.armorSets ≠ []) ∧
      (∀ k ∈ out.map (fun mx => mx.statMix),
        k ∈ mixes.map (fun mx => mx.statMix) ∨ k = m) ∧
      out ≠ [] := by
  intro mixes
  induction mixes with
  | nil => intro out h; simp [insertIntoStatMixes] at h
  | cons mx rest ih =>
    intro out h
    simp only [insertIntoStatMixes] at h
    split at h
    · -- new signature strictly greater: prepended as a fresh group
      rw [Option.some_inj] at h
      subst h
      refine ⟨by simp, ?_, ?_, ?_, by simp⟩
      · intro x hx
        simp at hx ⊢
        tauto
      · intro hwf mx2 hmx2
        rcases List.mem_cons.mp hmx2 with h2 | h2
        · subst h2; simp
        · exact hwf mx2 h2
      · intro k hk
        simp only [List.map_cons, List.mem_cons] at hk ⊢
        tauto
    · split at h
      · -- equal signature group found
        split at h
        · -- the inner loop inserted into the group
          rename_i newSets hins
          rw [Option.some_inj] at h
          subst h
          obtain ⟨hlen, hmem, hne⟩ := insertIntoArmorSets_some s mx.armorSets newSets hins
          refine ⟨by simp [hlen]; omega, ?_, ?_, ?_, by simp⟩
          · intro x hx
            simp at hx ⊢
            rcases hx with hx | hx
            · rcases hmem x hx with h2 | h2
              · exact Or.inl h2
              · exact Or.inr (Or.inl h2)
            · exact Or.inr (Or.inr hx)
          · intro hwf mx2 hmx2
            rcases List.mem_cons.mp hmx2 with h2 | h2
            · subst h2; simpa using hne
            · exact hwf mx2 (List.mem_cons_of_mem _ h2)
          · intro k hk
            simp only [List.map_cons, List.mem_cons] at hk ⊢
            tauto
        · -- the group was empty; the JS loop fell through
          rename_i hins
          have hempty := insertIntoArmorSets_none s mx.armorSets hins
          split at h
          · rename_i hrestEmpty
            have hrest : rest = [] := by simpa using hrestEmpty
            subst hrest
            rw [Option.some_inj] at h
            subst h
            refine ⟨by simp [hempty], ?_, ?_, ?_, by simp⟩
            · intro x hx
              simp [hempty] at hx
              simp [hx]
            · intro hwf mx2 hmx2
              exact absurd hempty (hwf mx (List.mem_cons_self mx []))
            · intro k hk
              simp only [List.map_cons, List.mem_cons] at hk ⊢
              tauto
          · rw [Option.map_eq_some'] at h
            obtain ⟨out2, hrec, hout⟩ := h
            subst hout
            obtain ⟨hlen, hmem, hwf2, hkeys, hne⟩ := ih out2 hrec
            refine ⟨by simp [hlen]; omega, ?_, ?_, ?_, by simp⟩
            · intro x hx
              simp at hx ⊢
              rcases hx with hx | hx
              · exact Or.inr (Or.inl hx)
              · rcases hmem x hx with h2 | h2
                · exact Or.inl h2
                · exact Or.inr (Or.inr h2)
            · intro hwf mx2 hmx2
              rcases List.mem_cons.mp hmx2 with h2 | h2
              · rw [h2]; exact hwf mx (List.mem_cons_self mx rest)
              · exact hwf2 (fun mx3 h3 => hwf mx3 (List.mem_cons_of_mem _ h3)) mx2 h2
            · intro k hk
              simp only [List.map_cons, List.mem_cons] at hk ⊢
              rcases hk with hk | hk
              · exact Or.inl (Or.inl hk)
              · rcases hkeys k hk with h2 | h2
                · exact Or.inl (Or.inr h2)
                · exact Or.inr h2
      · -- new signature strictly smaller: continue down the list
        split at h
        · rw [Option.some_inj] at h
          subst h
          refine ⟨by simp; omega, ?_, ?_, ?_, by simp⟩
          · intro x hx
            simp at hx ⊢
            tauto
          · intro hwf mx2 hmx2
            simp at hmx2
            rcases hmx2 with h2 | h2 | h2
            · rw [h2]; exact hwf mx (List.mem_cons_self mx rest)
            · exact hwf mx2 (List.mem_cons_of_mem _ h2)
            · subst h2; simp
          · intro k hk
            simp only [List.map_cons, List.map_append, List.mem_cons,
              List.mem_append] at hk ⊢
            tauto
        · rw [Option.map_eq_some'] at h
          obtain ⟨out2, hrec, hout⟩ := h
          subst hout
          obtain ⟨hlen, hmem, hwf2, hkeys, hne⟩ := ih out2 hrec
          refine ⟨by simp [hlen]; omega, ?_, ?_, ?_, by simp⟩
          · intro x hx
            simp at hx ⊢
            rcases hx with hx | hx
            · exact Or.inr (Or.inl hx)
            · rcases hmem x hx with h2 | h2
              · exact Or.inl h2
              · exact Or.inr (Or.inr h2)
          · intro hwf mx2 hmx2
            rcases List.mem_cons.mp hmx2 with h2 | h2
            · rw [h2]; exact hwf mx (List.mem_cons_self mx rest)
            · exact hwf2 (fun mx3 h3 => hwf mx3 (List.mem_cons_of_mem _ h3)) mx2 h2
          · intro k hk
            simp only [List.map_cons, List.mem_cons] at hk ⊢
            rcases hk with hk | hk
            · exact Or.inl (Or.inl hk)
            · rcases hkeys k hk with h2 | h2
              · exact Or.inl (Or.inr h2)
              · exact Or.inr h2

@[simp] theorem trackerFlatten_nil : trackerFlatten [] = [] := rfl

@[simp] theorem trackerFlatten_cons (te : TierEntry) (rest : SetTracker) :
    trackerFlatten (te :: rest) = mixesSets te.statMixes ++ trackerFlatten rest := by
  simp [trackerFlatten, mixesSets]

@[simp] theorem trackerFlatten_append (a b : SetTracker) :
    trackerFlatten (a ++ b) = trackerFlatten a ++ trackerFlatten b := by
  simp [trackerFlatten]

theorem insertIntoSetTracker_props (tier : Int) (m : String)
    (s : IntermediateProcessArmorSet) :
    ∀ (tr : SetTracker),
      trackerCount (insertIntoSetTracker tier m s tr) = trackerCount tr + 1 ∧
      (∀ x ∈ trackerFlatten (insertIntoSetTracker tier m s tr),
        x = s ∨ x ∈ trackerFlatten tr) ∧
      (trackerWF tr → trackerWF (insertIntoSetTracker tier m s tr)) ∧
      (∀ ti ∈ (insertIntoSetTracker tier m s tr).map (fun te => te.tier),
        ti ∈ tr.map (fun te => te.tier) ∨ ti = tier) := by
  intro tr
  induction tr with
  | nil =>
    refine ⟨by simp [insertIntoSetTracker, trackerCount], ?_, ?_, ?_⟩
    · intro x hx
      simp [insertIntoSetTracker] at hx
      simp [hx]
    · intro hwf
      intro te hte
      simp [insertIntoSetTracker] at hte
      subst hte
      simp
    · intro ti hti
      simp [insertIntoSetTracker] at hti
      simp [hti]
  | cons te rest ih =>
    obtain ⟨ihCount, ihMem, ihWF, ihTiers⟩ := ih
    show trackerCount (insertIntoSetTracker tier m s (te :: rest)) = _ ∧ _
    simp only [insertIntoSetTracker]
    split
    · -- strictly higher tier: fresh tier group in front
      refine ⟨by simp [trackerCount], ?_, ?_, ?_⟩
      · intro x hx
        simp at hx ⊢
        tauto
      · intro hwf te2 hte2
        simp only [List.mem_cons] at hte2
        rcases hte2 with h2 | h2 | h2
        · subst h2; simp
        · rw [h2]; exact hwf te (List.mem_cons_self te rest)
        · exact hwf te2 (List.mem_cons_of_mem _ h2)
      · intro ti hti
        simp only [List.map_cons, List.mem_cons] at hti ⊢
        tauto
    · split
      · -- equal tier group found
        split
        · -- the signature-level loop returned
          rename_i newMixes hins
          obtain ⟨hlen, hmem, hwf2, hkeys, hne⟩ := insertIntoStatMixes_some m s
            te.statMixes newMixes hins
          refine ⟨by simp [trackerCount, hlen]; omega, ?_, ?_, ?_⟩
          · intro x hx
            simp at hx ⊢
            rcases hx with hx | hx
            · rcases hmem x hx with h2 | h2
              · exact Or.inl h2
              · exact Or.inr (Or.inl h2)
            · exact Or.inr (Or.inr hx)
          · intro hwf te2 hte2
            simp only [List.mem_cons] at hte2
            rcases hte2 with h2 | h2
            · subst h2
              exact ⟨hne, hwf2 (fun mx h3 => (hwf te (List.mem_cons_self te rest)).2 mx h3)⟩
            · exact hwf te2 (List.mem_cons_of_mem _ h2)
          · intro ti hti
            simp only [List.map_cons, List.mem_cons] at hti ⊢
            tauto
        · -- the signature-level loop fell through: empty signature list
          rename_i hins
          have hempty := insertIntoStatMixes_none m s te.statMixes hins
          split
          · refine ⟨by simp [trackerCount, hempty], ?_, ?_, ?_⟩
            · intro x hx
              simp [hempty] at hx ⊢
              tauto
            · intro hwf te2 hte2
              exact absurd hempty (hwf te (List.mem_cons_self te rest)).1
            · intro ti hti
              simp only [List.map_cons, List.map_append, List.mem_cons,
                List.mem_append] at hti ⊢
              tauto
          · refine ⟨by simp [trackerCount] at ihCount ⊢; omega, ?_, ?_, ?_⟩
            · intro x hx
              simp at hx ⊢
              rcases hx with hx | hx
              · exact Or.inr (Or.inl hx)
              · rcases ihMem x hx with h2 | h2
                · exact Or.inl h2
                · exact Or.inr (Or.inr h2)
            · intro hwf te2 hte2
              simp only [List.mem_cons] at hte2
              rcases hte2 with h2 | h2
              · rw [h2]; exact hwf te (List.mem_cons_self te rest)
              · exact ihWF (fun te3 h3 => hwf te3 (List.mem_cons_of_mem _ h3)) te2 h2
            · intro ti hti
              simp only [List.map_cons, List.mem_cons] at hti ⊢
              rcases hti with hti | hti
              · exact Or.inl (Or.inl hti)
              · rcases ihTiers ti hti with h2 | h2
                · exact Or.inl (Or.inr h2)
                · exact Or.inr h2
      · -- strictly lower tier: continue down the list
        split
        · refine ⟨by simp [trackerCount]; omega, ?_, ?_, ?_⟩
          · intro x hx
            simp at hx ⊢
            tauto
          · intro hwf te2 hte2
            simp at hte2
            rcases hte2 with h2 | h2 | h2
            · rw [h2]; exact hwf te (List.mem_cons_self te rest)
            · exact hwf te2 (List.mem_cons_of_mem _ h2)
            · rw [h2]; simp
          · intro ti hti
            simp only [List.map_cons, List.map_append, List.mem_cons,
              List.mem_append] at hti ⊢
            tauto
        · refine ⟨by simp [trackerCount] at ihCount ⊢; omega, ?_, ?_, ?_⟩
          · intro x hx
            simp at hx ⊢
            rcases hx with hx | hx
            · exact Or.inr (Or.inl hx)
            · rcases ihMem x hx with h2 | h2
              · exact Or.inl h2
              · exact Or.inr (Or.inr h2)
          · intro hwf te2 hte2
            simp only [List.mem_cons] at hte2
            rcases hte2 with h2 | h2
            · rw [h2]; exact hwf te (List.mem_cons_self te rest)
            · exact ihWF (fun te3 h3 => hwf te3 (List.mem_cons_of_mem _ h3)) te2 h2
          · intro ti hti
            simp only [List.map_cons, List.mem_cons] at hti ⊢
            rcases hti with hti | hti
            · exact Or.inl (Or.inl hti)
            · rcases ihTiers ti hti with h2 | h2
              · exact Or.inl (Or.inr h2)
              · exact Or.inr h2

theorem insertIntoStatMixes_sorted (m : String) (s : IntermediateProcessArmorSet) :
    ∀ (mixes out : List StatMixEntry),
      insertIntoStatMixes m s mixes = some out →
      (∀ mx ∈ mixes, mx.armorSets ≠ []) →
      (mixes.map (fun mx => mx.statMix)).Pairwise (fun a b => jsStrLt b a = true) →
      (out.map (fun mx => mx.statMix)).Pairwise (fun a b => jsStrLt b a = true) := by
  intro mixes
  induction mixes with
  | nil => intro out h hwf hsorted; simp [insertIntoStatMixes] at h
  | cons mx rest ih =>
    intro out h hwf hsorted
    simp only [insertIntoStatMixes] at h
    rw [List.map_cons, List.pairwise_cons] at hsorted
    obtain ⟨hhead, htail⟩ := hsorted
    split at h
    · rename_i hlt
      rw [Option.some_inj] at h
      subst h
      simp only [List.map_cons]
      rw [List.pairwise_cons]
      refine ⟨?_, ?_⟩
      · intro b hb
        simp only [List.mem_cons] at hb
        rcases hb with hb | hb
        · rw [hb]; exact hlt
        · exact jsStrLt_trans b mx.statMix m (hhead b hb) hlt
      · rw [List.pairwise_cons]
        exact ⟨hhead, htail⟩
    · split at h
      · rename_i heq
        split at h
        · rename_i newSets hins
          rw [Option.some_inj] at h
          subst h
          simp only [List.map_cons]
          rw [List.pairwise_cons]
          exact ⟨hhead, htail⟩
        · rename_i hins
          exact absurd (insertIntoArmorSets_none s mx.armorSets hins)
            (hwf mx (List.mem_cons_self mx rest))
      · rename_i hnlt hne
        have hgt : jsStrLt m mx.statMix = true := by
          rcases jsStrLt_total mx.statMix m with h2 | h2 | h2
          · exact absurd h2 hnlt
          · exact absurd h2 hne
          · exact h2
        split at h
        · rename_i hrestEmpty
          have hrest : rest = [] := by simpa using hrestEmpty
          subst hrest
          rw [Option.some_inj] at h
          subst h
          simp only [List.cons_append, List.nil_append, List.map_cons, List.map_nil]
          rw [List.pairwise_cons]
          refine ⟨?_, by simp⟩
          intro b hb
          simp at hb
          rw [hb]
          exact hgt
        · rw [Option.map_eq_some'] at h
          obtain ⟨out2, hrec, hout⟩ := h
          subst hout
          obtain ⟨hlen2, hmem2, hwf2, hkeys2, hne2⟩ := insertIntoStatMixes_some m s
            rest out2 hrec
          simp only [List.map_cons]
          rw [List.pairwise_cons]
          refine ⟨?_, ?_⟩
          · intro b hb
            rcases hkeys2 b hb with h2 | h2
            · exact hhead b h2
            · rw [h2]; exact hgt
          · exact ih out2 hrec (fun mx2 h2 => hwf mx2 (List.mem_cons_of_mem _ h2)) htail

theorem insertIntoSetTracker_sorted (tier : Int) (m : String)
    (s : IntermediateProcessArmorSet) :
    ∀ (tr : SetTracker), trackerWF tr → trackerSorted tr →
      trackerSorted (insertIntoSetTracker tier m s tr) := by
  intro tr
  induction tr with
  | nil =>
    intro hwf hsorted
    refine ⟨by simp [insertIntoSetTracker], ?_⟩
    intro te hte
    simp [insertIntoSetTracker] at hte
    subst hte
    simp
  | cons te rest ih =>
    intro hwf hsorted
    obtain ⟨htiers, hmixes⟩ := hsorted
    rw [List.map_cons, List.pairwise_cons] at htiers
    obtain ⟨hheadT, htailT⟩ := htiers
    simp only [insertIntoSetTracker]
    split
    · rename_i hgt
      refine ⟨?_, ?_⟩
      · simp only [List.map_cons]
        rw [List.pairwise_cons]
        refine ⟨?_, ?_⟩
        · intro b hb
          simp only [List.mem_cons] at hb
          rcases hb with hb | hb
          · omega
          · have := hheadT b hb
            omega
        · rw [List.pairwise_cons]
          exact ⟨hheadT, htailT⟩
      · intro te2 hte2
        simp only [List.mem_cons] at hte2
        rcases hte2 with h2 | h2 | h2
        · rw [h2]; simp
        · rw [h2]; exact hmixes te (List.mem_cons_self te rest)
        · exact hmixes te2 (List.mem_cons_of_mem _ h2)
    · split
      · rename_i hngt heq
        split
        · rename_i newMixes hins
          refine ⟨?_, ?_⟩
          · simp only [List.map_cons]
            rw [List.pairwise_cons]
            exact ⟨hheadT, htailT⟩
          · intro te2 hte2
            simp only [List.mem_cons] at hte2
            rcases hte2 with h2 | h2
            · rw [h2]
              exact insertIntoStatMixes_sorted m s te.statMixes newMixes hins
                (hwf te (List.mem_cons_self te rest)).2
                (hmixes te (List.mem_cons_self te rest))
            · exact hmixes te2 (List.mem_cons_of_mem _ h2)
        · rename_i hins
          exact absurd (insertIntoStatMixes_none m s te.statMixes hins)
            (hwf te (List.mem_cons_self te rest)).1
      · rename_i hngt hne
        have hlt : tier < te.tier := by
          rcases Int.lt_trichotomy tier te.tier with h2 | h2 | h2
          · exact h2
          · exact absurd h2 hne
          · exact absurd h2 hngt
        split
        · rename_i hrestEmpty
          have hrest : rest = [] := by simpa using hrestEmpty
          subst hrest
          refine ⟨?_, ?_⟩
          · simp only [List.cons_append, List.nil_append, List.map_cons, List.map_nil]
            rw [List.pairwise_cons]
            refine ⟨?_, by simp⟩
            intro b hb
            simp at hb
            omega
          · intro te2 hte2
            simp at hte2
            rcases hte2 with h2 | h2
            · rw [h2]; exact hmixes te (List.mem_cons_self te [])
            · rw [h2]; simp
        · refine ⟨?_, ?_⟩
          · simp only [List.map_cons]
            rw [List.pairwise_cons]
            refine ⟨?_, ?_⟩
            · intro b hb
              rcases (insertIntoSetTracker_props tier m s rest).2.2.2 b hb with h2 | h2
              · exact hheadT b h2
              · omega
            · exact (ih (fun te3 h3 => hwf te3 (List.mem_cons_of_mem _ h3))
                ⟨htailT, fun te3 h3 => hmixes te3 (List.mem_cons_of_mem _ h3)⟩).1
          · intro te2 hte2
            simp only [List.mem_cons] at hte2
            rcases hte2 with h2 | h2
            · rw [h2]; exact hmixes te (List.mem_cons_self te rest)
            · exact (ih (fun te3 h3 => hwf te3 (List.mem_cons_of_mem _ h3))
                ⟨htailT, fun te3 h3 => hmixes te3 (List.mem_cons_of_mem _ h3)⟩).2 te2 h2

theorem evictFromMixes_props : ∀ (mixes : List StatMixEntry),
    (∀ mx ∈ mixes, mx.armorSets ≠ []) → mixes ≠ [] →
      (mixesSets (evictFromMixes mixes)).length + 1 = (mixesSets mixes).length ∧
      (∀ x ∈ mixesSets (evictFromMixes mixes), x ∈ mixesSets mixes) ∧
      (∀ mx ∈ evictFromMixes mixes, mx.armorSets ≠ []) ∧
      List.Sublist ((evictFromMixes mixes).map (fun mx => mx.statMix))
        (mixes.map (fun mx => mx.statMix)) := by
  intro mixes
  induction mixes with
  | nil => intro hwf hne; exact absurd rfl hne
  | cons mx rest ih =>
    intro hwf hne
    cases rest with
    | nil =>
      have hmx : mx.armorSets ≠ [] := hwf mx (List.mem_cons_self mx [])
      simp only [evictFromMixes]
      split
      · rename_i hrem
        refine ⟨?_, by simp, by simp, by simp⟩
        have := List.length_dropLast mx.armorSets
        have hpos : mx.armorSets.length ≠ 0 := by
          intro h0
          exact hmx (List.length_eq_zero.mp h0)
        simp only [List.isEmpty_iff] at hrem
        simp [hrem] at this ⊢
        omega
      · rename_i hrem
        refine ⟨?_, ?_, ?_, ?_⟩
        · have := List.length_dropLast mx.armorSets
          have hpos : mx.armorSets.length ≠ 0 := by
            intro h0
            exact hmx (List.length_eq_zero.mp h0)
          simp at this ⊢
          omega
        · intro x hx
          simp at hx ⊢
          exact List.dropLast_subset mx.armorSets hx
        · intro mx2 hmx2
          simp at hmx2
          rw [hmx2]
          simpa using hrem
        · simp
    | cons mx2 rest2 =>
      have hrec := ih (fun mx3 h3 => hwf mx3 (List.mem_cons_of_mem _ h3))
        (by simp)
      obtain ⟨hcount, hmem, hwf2, hsub⟩ := hrec
      simp only [evictFromMixes]
      refine ⟨?_, ?_, ?_, ?_⟩
      · simp at hcount ⊢
        omega
      · intro x hx
        simp at hx ⊢
        rcases hx with hx | hx
        · exact Or.inl hx
        · have := hmem x (by simpa using hx)
          simp at this
          tauto
      · intro mx3 hmx3
        rcases List.mem_cons.mp hmx3 with h2 | h2
        · rw [h2]; exact hwf mx (List.mem_cons_self _ _)
        · exact hwf2 mx3 h2
      · simp only [List.map_cons]
        exact List.Sublist.cons₂ _ hsub

theorem trackerCount_pos_of_WF : ∀ (tr : SetTracker), trackerWF tr → tr ≠ [] →
    trackerCount tr ≠ 0 := by
  intro tr hwf hne
  cases tr with
  | nil => exact absurd rfl hne
  | cons te rest =>
    have h1 : te.statMixes ≠ [] := (hwf te (List.mem_cons_self te rest)).1
    cases hsm : te.statMixes with
    | nil => exact absurd hsm h1
    | cons mx mrest =>
      have h2 : mx.armorSets ≠ [] :=
        (hwf te (List.mem_cons_self te rest)).2 mx (by rw [hsm]; exact List.mem_cons_self _ _)
      cases ha : mx.armorSets with
      | nil => exact absurd ha h2
      | cons a arest =>
        simp [trackerCount, hsm, ha]

theorem evictWorst_props : ∀ (tr : SetTracker) (lowest : Int),
    trackerWF tr → tr ≠ [] →
      trackerCount (evictWorst tr lowest).1 + 1 = trackerCount tr ∧
      (∀ x ∈ trackerFlatten (evictWorst tr lowest).1, x ∈ trackerFlatten tr) ∧
      trackerWF (evictWorst tr lowest).1 ∧
      List.Sublist ((evictWorst tr lowest).1.map (fun te => te.tier))
        (tr.map (fun te => te.tier)) ∧
      (trackerSorted tr → trackerSorted (evictWorst tr lowest).1) := by
  intro tr
  induction tr with
  | nil => intro lowest hwf hne; exact absurd rfl hne
  | cons te rest ih =>
    intro lowest hwf hne
    cases rest with
    | nil =>
      have hTe := hwf te (List.mem_cons_self te [])
      obtain ⟨hm1, hm2, hm3, hm4⟩ := evictFromMixes_props te.statMixes hTe.2 hTe.1
      simp only [evictWorst]
      split
      · rename_i hempty
        rw [List.isEmpty_iff] at hempty
        refine ⟨?_, by simp, by intro te2 h2; simp at h2, by simp, by intro h2; simp [trackerSorted]⟩
        simp [trackerCount] at hm1 ⊢
        rw [hempty] at hm1
        simp at hm1
        omega
      · rename_i hempty
        refine ⟨?_, ?_, ?_, ?_, ?_⟩
        · simpa [trackerCount] using hm1
        · intro x hx
          simp at hx ⊢
          exact hm2 x hx
        · intro te2 hte2
          simp at hte2
          rw [hte2]
          exact ⟨by simpa using hempty, hm3⟩
        · simp
        · intro hsorted
          refine ⟨by simp, ?_⟩
          intro te2 hte2
          simp at hte2
          rw [hte2]
          exact List.Pairwise.sublist hm4 (hsorted.2 te (List.mem_cons_self te []))
    | cons te2 rest2 =>
      have hrec := ih lowest (fun te3 h3 => hwf te3 (List.mem_cons_of_mem _ h3))
        (by simp)
      obtain ⟨hc, hmem, hwf2, hsub, hsort⟩ := hrec
      have hCountPos : trackerCount (te2 :: rest2) ≠ 0 :=
        trackerCount_pos_of_WF (te2 :: rest2)
          (fun te3 h3 => hwf te3 (List.mem_cons_of_mem _ h3)) (by simp)
      simp only [evictWorst]
      rcases hev : evictWorst (te2 :: rest2) lowest with ⟨tr2, l2⟩
      rw [hev] at hc hmem hwf2 hsub hsort
      cases tr2 with
      | nil =>
        simp only []
        refine ⟨?_, ?_, ?_, ?_, ?_⟩
        · simp [trackerCount] at hc ⊢
          omega
        · intro x hx
          simp at hx ⊢
          exact Or.inl hx
        · intro te3 hte3
          simp at hte3
          rw [hte3]
          exact hwf te (List.mem_cons_self _ _)
        · simp
        · intro hsorted
          refine ⟨by simp, ?_⟩
          intro te3 hte3
          simp at hte3
          rw [hte3]
          exact hsorted.2 te (List.mem_cons_self _ _)
      | cons te4 rest4 =>
        simp only []
        refine ⟨?_, ?_, ?_, ?_, ?_⟩
        · simp [trackerCount] at hc ⊢
          omega
        · intro x hx
          simp at hx ⊢
          rcases hx with hx | hx
          · exact Or.inl hx
          · have := hmem x (by simpa using hx)
            simp at this
            tauto
        · intro te3 hte3
          rcases List.mem_cons.mp hte3 with h2 | h2
          · rw [h2]; exact hwf te (List.mem_cons_self _ _)
          · exact hwf2 te3 h2
        · simp only [List.map_cons]
          exact List.Sublist.cons₂ _ hsub
        · intro hsorted
          obtain ⟨htiers, hmixes⟩ := hsorted
          rw [List.map_cons, List.pairwise_cons] at htiers
          obtain ⟨hheadT, htailT⟩ := htiers
          refine ⟨?_, ?_⟩
          · simp only [List.map_cons]
            rw [List.pairwise_cons]
            refine ⟨?_, ?_⟩
            · intro b hb
              exact hheadT b (hsub.subset hb)
            · exact (hsort ⟨htailT,
                fun te5 h5 => hmixes te5 (List.mem_cons_of_mem _ h5)⟩).1
          · intro te5 hte5
            rcases List.mem_cons.mp hte5 with h2 | h2
            · rw [h2]; exact hmixes te (List.mem_cons_self _ _)
            · exact (hsort ⟨htailT,
                fun te6 h6 => hmixes te6 (List.mem_cons_of_mem _ h6)⟩).2 te5 h2

theorem processCombo_inv (P : IntermediateProcessArmorSet → Prop)
    (cfg : ProcessCfg) (st : LoopState) (combo : Combo)
    (hInv : StInv P st)
    (hP : (considerScan cfg (comboStats cfg combo.armor) st.statRanges).exceeded = false →
      P ⟨combo.armor, (considerScan cfg (comboStats cfg combo.armor) st.statRanges).stats⟩) :
    StInv P (processCombo cfg st combo) := by
  obtain ⟨h1, h2, h3, h4, h5⟩ := hInv
  simp only [processCombo]
  split
  · exact ⟨h1, h2, h3, h4, h5⟩
  · split
    · exact ⟨h1, h2, h3, h4, h5⟩
    · split
      · exact ⟨h1, h2, h3, h4, h5⟩
      · rename_i hexc hskip hmods
        have hexcF : (considerScan cfg (comboStats cfg combo.armor) st.statRanges).exceeded
            = false := by
          revert hexc
          cases (considerScan cfg (comboStats cfg combo.armor) st.statRanges).exceeded <;> simp
        obtain ⟨hic, him, hiw, hit⟩ := insertIntoSetTracker_props
          (considerScan cfg (comboStats cfg combo.armor) st.statRanges).totalTier
          (considerScan cfg (comboStats cfg combo.armor) st.statRanges).tiers
          ⟨combo.armor, (considerScan cfg (comboStats cfg combo.armor) st.statRanges).stats⟩
          st.setTracker
        have hSort := insertIntoSetTracker_sorted
          (considerScan cfg (comboStats cfg combo.armor) st.statRanges).totalTier
          (considerScan cfg (comboStats cfg combo.armor) st.statRanges).tiers
          ⟨combo.armor, (considerScan cfg (comboStats cfg combo.armor) st.statRanges).stats⟩
          st.setTracker h2 h4
        have hNTcount : trackerCount (insertIntoSetTracker
            (considerScan cfg (comboStats cfg combo.armor) st.statRanges).totalTier
            (considerScan cfg (comboStats cfg combo.armor) st.statRanges).tiers
            ⟨combo.armor, (considerScan cfg (comboStats cfg combo.armor) st.statRanges).stats⟩
            st.setTracker) = st.setCount + 1 := by
          rw [hic, h1]
        split
        · rename_i hcap
          have hNTne : insertIntoSetTracker
              (considerScan cfg (comboStats cfg combo.armor) st.statRanges).totalTier
              (considerScan cfg (comboStats cfg combo.armor) st.statRanges).tiers
              ⟨combo.armor, (considerScan cfg (comboStats cfg combo.armor) st.statRanges).stats⟩
              st.setTracker ≠ [] := by
            intro h0
            rw [h0] at hNTcount
            simp [trackerCount] at hNTcount
          obtain ⟨he1, he2, he3, he4, he5⟩ := evictWorst_props
            (insertIntoSetTracker
              (considerScan cfg (comboStats cfg combo.armor) st.statRanges).totalTier
              (considerScan cfg (comboStats cfg combo.armor) st.statRanges).tiers
              ⟨combo.armor, (considerScan cfg (comboStats cfg combo.armor) st.statRanges).stats⟩
              st.setTracker)
            (if (considerScan cfg (comboStats cfg combo.armor) st.statRanges).totalTier <
                st.lowestTier
              then (considerScan cfg (comboStats cfg combo.armor) st.statRanges).totalTier
              else st.lowestTier)
            (hiw h2) hNTne
          refine ⟨?_, he3, ?_, he5 (insertIntoSetTracker_sorted _ _ _ _ h2 h4), ?_⟩
          · change st.setCount + 1 - 1 = trackerCount (evictWorst _ _).1
            omega
          · show st.setCount + 1 - 1 ≤ RETURNED_ARMOR_SETS
            omega
          · intro x hx
            rcases him x (he2 x hx) with h6 | h6
            · rw [h6]; exact hP hexcF
            · exact h5 x h6
        · rename_i hcap
          refine ⟨hNTcount.symm, hiw h2, ?_, hSort, ?_⟩
          · show st.setCount + 1 ≤ RETURNED_ARMOR_SETS
            omega
          · intro x hx
            rcases him x hx with h6 | h6
            · rw [h6]; exact hP hexcF
            · exact h5 x h6

theorem processCombo_eq_noSkip (cfg : ProcessCfg) (st : LoopState) (combo : Combo)
    (h3 : st.setCount ≤ RETURNED_ARMOR_SETS) :
    processCombo cfg st combo = processComboNoSkip cfg st combo := by
  by_cases hexc : (considerScan cfg (comboStats cfg combo.armor) st.statRanges).exceeded = true
  · simp [processCombo, processComboNoSkip, hexc]
  · have hskip : ¬((considerScan cfg (comboStats cfg combo.armor) st.statRanges).totalTier <
        st.lowestTier ∧ st.setCount > RETURNED_ARMOR_SETS) := by
      rintro ⟨-, hgt⟩
      omega
    simp only [processCombo, processComboNoSkip, hexc, if_false, hskip, if_neg,
      not_false_eq_true]

theorem foldl_preserves {σ α : Type} (step : σ → α → σ) (P : σ → Prop) :
    ∀ (l : List α) (st : σ), P st → (∀ s c, c ∈ l → P s → P (step s c)) →
      P (l.foldl step st) := by
  intro l
  induction l with
  | nil => intro st h1 h2; exact h1
  | cons c rest ih =>
    intro st h1 h2
    exact ih (step st c) (h2 st c (List.mem_cons_self c rest) h1)
      (fun s c2 hc2 => h2 s c2 (List.mem_cons_of_mem _ hc2))

theorem foldl_congr_inv {σ α : Type} (f g : σ → α → σ) (P : σ → Prop)
    (heq : ∀ s c, P s → f s c = g s c) (hpres : ∀ s c, P s → P (f s c)) :
    ∀ (l : List α) (st : σ), P st → l.foldl f st = l.foldl g st := by
  intro l
  induction l with
  | nil => intro st h1; rfl
  | cons c rest ih =>
    intro st h1
    rw [List.foldl_cons, List.foldl_cons, ← heq st c h1]
    exact ih (f st c) (hpres st c h1)

theorem initState_inv (P : IntermediateProcessArmorSet → Prop) (r : StatRangesT) :
    StInv P ⟨[], 100, 0, r⟩ := by
  refine ⟨rfl, ?_, by simp [RETURNED_ARMOR_SETS], ⟨by simp, by simp⟩, by simp⟩
  intro te hte
  simp at hte

theorem insertByCmp_length (cmp : ProcessItem → ProcessItem → Int) (x : ProcessItem) :
    ∀ l, (insertByCmp cmp x l).length = l.length + 1 := by
  intro l
  induction l with
  | nil => rfl
  | cons y ys ih =>
    simp only [insertByCmp]
    split
    · simp
    · simp [ih]

theorem sortByCmp_length (cmp : ProcessItem → ProcessItem → Int) :
    ∀ l, (sortByCmp cmp l).length = l.length := by
  intro l
  induction l with
  | nil => rfl
  | cons y ys ih =>
    simp only [sortByCmp, List.foldr_cons]
    rw [insertByCmp_length]
    simp only [sortByCmp] at ih
    rw [ih]
    rfl

theorem insertByCmp_mem (cmp : ProcessItem → ProcessItem → Int) (x y : ProcessItem) :
    ∀ l, y ∈ insertByCmp cmp x l ↔ y = x ∨ y ∈ l := by
  intro l
  induction l with
  | nil => simp [insertByCmp]
  | cons z zs ih =>
    simp only [insertByCmp]
    split
    · simp
    · rw [List.mem_cons, ih, List.mem_cons]
      tauto

theorem sortByCmp_mem (cmp : ProcessItem → ProcessItem → Int) (y : ProcessItem) :
    ∀ l, y ∈ sortByCmp cmp l ↔ y ∈ l := by
  intro l
  induction l with
  | nil => simp [sortByCmp]
  | cons z zs ih =>
    simp only [sortByCmp, List.foldr_cons]
    rw [insertByCmp_mem]
    simp only [sortByCmp] at ih
    rw [ih, List.mem_cons]

theorem processFull_spec (fi : ProcessItemsByBucket) (mt : StatsT)
    (lmm : List (Nat × List ProcessMod)) (amw : Bool) (so : List StatTypes)
    (sf : StatFiltersT) (gen : List ProcessMod → List (List ProcessMod))
    (can : List (List ProcessMod) → List (List ProcessMod) → List (List ProcessMod) →
      List ProcessItem → Bool) :
    (processFull fi mt lmm amw so sf gen can).finalItems = postTrimLists fi so sf ∧
    (bucketProduct (postTrimLists fi so sf) = 0 →
      processFull fi mt lmm amw so sf gen can =
        ⟨[], 0, 0, none, [], postTrimLists fi so sf⟩) ∧
    (bucketProduct (postTrimLists fi so sf) ≠ 0 →
      ∃ cfg : ProcessCfg, cfg.modStatTotals = mt ∧ cfg.statOrder = so ∧
        cfg.statFilters = sf ∧ cfg.assumeMasterwork = amw ∧
        processFull fi mt lmm amw so sf gen can =
          ⟨flattenSets (trackerFlatten (runEnumeration processCombo cfg
              (postTrimLists fi so sf).helmet (postTrimLists fi so sf).gauntlets
              (postTrimLists fi so sf).chest (postTrimLists fi so sf).leg
              (postTrimLists fi so sf).classitem).setTracker),
            bucketProduct (postTrimLists fi so sf),
            bucketProduct fi,
            some (runEnumeration processCombo cfg
              (postTrimLists fi so sf).helmet (postTrimLists fi so sf).gauntlets
              (postTrimLists fi so sf).chest (postTrimLists fi so sf).leg
              (postTrimLists fi so sf).classitem).statRanges,
            (runEnumeration processCombo cfg
              (postTrimLists fi so sf).helmet (postTrimLists fi so sf).gauntlets
              (postTrimLists fi so sf).chest (postTrimLists fi so sf).leg
              (postTrimLists fi so sf).classitem).setTracker,
            postTrimLists fi so sf⟩) := by
  simp only [processFull, processWithStep, postTrimLists, bucketProduct]
  split
  · rename_i h0
    exact ⟨rfl, fun _ => rfl, fun hne => absurd h0 hne⟩
  · rename_i h0
    refine ⟨rfl, fun h => absurd h h0, fun _ => ?_⟩
    refine ⟨⟨mt, so, sf, amw,
      !(partitionMods lmm).2.1.isEmpty || !(partitionMods lmm).2.2.isEmpty ||
        !(partitionMods lmm).1.isEmpty,
      fun armor => can (gen (partitionMods lmm).1) (gen (partitionMods lmm).2.1)
        (gen (partitionMods lmm).2.2) armor⟩, rfl, rfl, rfl, rfl, ?_⟩
    simp only [sortByCmp_length]

theorem runEnumeration_inv (P : IntermediateProcessArmorSet → Prop)
    (cfg : ProcessCfg) (hs gs cs ls cis : List ProcessItem)
    (hP : ∀ (st : LoopState) (combo : Combo), combo ∈ comboList hs gs cs ls cis →
      (considerScan cfg (comboStats cfg combo.armor) st.statRanges).exceeded = false →
      P ⟨combo.armor, (considerScan cfg (comboStats cfg combo.armor) st.statRanges).stats⟩) :
    StInv P (runEnumeration processCombo cfg hs gs cs ls cis) := by
  unfold runEnumeration
  exact foldl_preserves _ _ _ _ (initState_inv P _)
    (fun s c hc hs2 => processCombo_inv P cfg s c hs2 (fun hex => hP s c hc hex))

theorem runEnumeration_eq_noSkip (cfg : ProcessCfg) (hs gs cs ls cis : List ProcessItem) :
    runEnumeration processCombo cfg hs gs cs ls cis =
      runEnumeration processComboNoSkip cfg hs gs cs ls cis := by
  unfold runEnumeration
  exact foldl_congr_inv _ _ (StInv (fun _ => True))
    (fun s c hsI => processCombo_eq_noSkip cfg s c hsI.2.2.1)
    (fun s c hsI => processCombo_inv _ cfg s c hsI (fun _ => trivial))
    _ _ (initState_inv _ _)

theorem process_sets_eq (fi : ProcessItemsByBucket) (mt : StatsT)
    (lmm : List (Nat × List ProcessMod)) (amw : Bool) (so : List StatTypes)
    (sf : StatFiltersT) (gen : List ProcessMod → List (List ProcessMod))
    (can : List (List ProcessMod) → List (List ProcessMod) → List (List ProcessMod) →
      List ProcessItem → Bool) :
    (process fi mt lmm amw so sf gen can).sets = (processFull fi mt lmm amw so sf gen can).sets := rfl

/-- Claim C1: for every input, the list of armor sets returned by `process` has
at most `RETURNED_ARMOR_SETS` (200) entries: the loop keeps the tracked count
equal to the tracker content and at most 200 at every combination boundary,
eviction of the globally worst entry undoing each overflow insertion. -/
theorem claim_C1_cap (fi : ProcessItemsByBucket) (mt : StatsT)
    (lmm : List (Nat × List ProcessMod)) (amw : Bool) (so : List StatTypes)
    (sf : StatFiltersT) (gen : List ProcessMod → List (List ProcessMod))
    (can : List (List ProcessMod) → List (List ProcessMod) → List (List ProcessMod) →
      List ProcessItem → Bool) :
    (process fi mt lmm amw so sf gen can).sets.length ≤ RETURNED_ARMOR_SETS := by
  obtain ⟨hfi, h0, hmain⟩ := processFull_spec fi mt lmm amw so sf gen can
  rw [process_sets_eq]
  by_cases hz : bucketProduct (postTrimLists fi so sf) = 0
  · rw [h0 hz]
    simp [RETURNED_ARMOR_SETS]
  · obtain ⟨cfg, -, -, -, -, heq⟩ := hmain hz
    rw [heq]
    obtain ⟨h1, -, h3, -, -⟩ := runEnumeration_inv (fun _ => True) cfg
      (postTrimLists fi so sf).helmet (postTrimLists fi so sf).gauntlets
      (postTrimLists fi so sf).chest (postTrimLists fi so sf).leg
      (postTrimLists fi so sf).classitem (fun _ _ _ _ => trivial)
    show (flattenSets (trackerFlatten _)).length ≤ RETURNED_ARMOR_SETS
    rw [flattenSets, List.length_map]
    have : trackerCount (runEnumeration processCombo cfg
        (postTrimLists fi so sf).helmet (postTrimLists fi so sf).gauntlets
        (postTrimLists fi so sf).chest (postTrimLists fi so sf).leg
        (postTrimLists fi so sf).classitem).setTracker =
        (trackerFlatten (runEnumeration processCombo cfg
          (postTrimLists fi so sf).helmet (postTrimLists fi so sf).gauntlets
          (postTrimLists fi so sf).chest (postTrimLists fi so sf).leg
          (postTrimLists fi so sf).classitem).setTracker).length := rfl
    omega

/-- Claim C2, amended: the final tracker (whose flattening is the returned
sequence) keeps its tier groups in strictly decreasing tier order and the
signature groups of every tier group in strictly decreasing (lexical,
code-unit) signature order; within one signature group no power order is
guaranteed. -/
theorem claim_C2_order_amended (fi : ProcessItemsByBucket) (mt : StatsT)
    (lmm : List (Nat × List ProcessMod)) (amw : Bool) (so : List StatTypes)
    (sf : StatFiltersT) (gen : List ProcessMod → List (List ProcessMod))
    (can : List (List ProcessMod) → List (List ProcessMod) → List (List ProcessMod) →
      List ProcessItem → Bool) :
    trackerSorted (processFull fi mt lmm amw so sf gen can).finalTracker := by
  obtain ⟨hfi, h0, hmain⟩ := processFull_spec fi mt lmm amw so sf gen can
  by_cases hz : bucketProduct (postTrimLists fi so sf) = 0
  · rw [h0 hz]
    exact ⟨by simp, by intro te hte; simp at hte⟩
  · obtain ⟨cfg, -, -, -, -, heq⟩ := hmain hz
    rw [heq]
    exact (runEnumeration_inv (fun _ => True) cfg _ _ _ _ _
      (fun _ _ _ _ => trivial)).2.2.2.1

/-- Claim C6, amended: the early-reject branch of the loop body is dead code.
The tracked set count never exceeds the cap at a combination boundary, so the
branch (which requires a count strictly above the cap) never fires, and
`process` is extensionally equal to the variant with the branch removed: no
combination is ever skipped by the tier check. -/
theorem claim_C6_dead_branch_amended (fi : ProcessItemsByBucket) (mt : StatsT)
    (lmm : List (Nat × List ProcessMod)) (amw : Bool) (so : List StatTypes)
    (sf : StatFiltersT) (gen : List ProcessMod → List (List ProcessMod))
    (can : List (List ProcessMod) → List (List ProcessMod) → List (List ProcessMod) →
      List ProcessItem → Bool) :
    processFull fi mt lmm amw so sf gen can =
      processNoSkipFull fi mt lmm amw so sf gen can := by
  simp only [processFull, processNoSkipFull, processWithStep, runEnumeration_eq_noSkip]

theorem comboList_mem (hs gs cs ls cis : List ProcessItem) (combo : Combo)
    (h : combo ∈ comboList hs gs cs ls cis) :
    combo.classItem ∈ cis ∧
    ¬((hasLabel combo.helm && hasLabel combo.gaunt) = true) ∧
    ¬((hasLabel combo.chest && (hasLabel combo.helm || hasLabel combo.gaunt)) = true) ∧
    ¬((hasLabel combo.leg &&
        (hasLabel combo.chest || hasLabel combo.helm || hasLabel combo.gaunt)) = true) := by
  simp only [comboList, List.mem_flatMap] at h
  obtain ⟨helm, hhelm, gaunt, hgaunt, h⟩ := h
  by_cases h1 : (hasLabel helm && hasLabel gaunt) = true
  · rw [if_pos h1] at h
    simp at h
  · rw [if_neg h1] at h
    simp only [List.mem_flatMap] at h
    obtain ⟨chest, hchest, h⟩ := h
    by_cases h2 : (hasLabel chest && (hasLabel helm || hasLabel gaunt)) = true
    · rw [if_pos h2] at h
      simp at h
    · rw [if_neg h2] at h
      simp only [List.mem_flatMap] at h
      obtain ⟨leg, hleg, h⟩ := h
      by_cases h3 : (hasLabel leg &&
          (hasLabel chest || hasLabel helm || hasLabel gaunt)) = true
      · rw [if_pos h3] at h
        simp at h
      · rw [if_neg h3] at h
        simp only [List.mem_map] at h
        obtain ⟨ci, hci, hcombo⟩ := h
        subst hcombo
        exact ⟨hci, h1, h2, h3⟩

theorem labeledCount_le_one (combo : Combo)
    (h1 : ¬((hasLabel combo.helm && hasLabel combo.gaunt) = true))
    (h2 : ¬((hasLabel combo.chest && (hasLabel combo.helm || hasLabel combo.gaunt)) = true))
    (h3 : ¬((hasLabel combo.leg &&
      (hasLabel combo.chest || hasLabel combo.helm || hasLabel combo.gaunt)) = true))
    (hci : hasLabel combo.classItem = false) :
    labeledCount combo.armor ≤ 1 := by
  cases hh : hasLabel combo.helm <;> cases hg : hasLabel combo.gaunt <;>
    cases hc : hasLabel combo.chest <;> cases hl : hasLabel combo.leg <;>
    simp_all [labeledCount, Combo.armor, List.filter]

/-- Claim C4: when no class item carries a non-empty exclusivity label, no
returned armor set contains two items with non-empty labels: the pruning of
the enumeration keeps at most one labelled item among the first four slots,
and the tracker only ever holds surviving combinations. The sets are stated at
item level through `finalTracker`, whose flattening the returned identifier
sets are assembled from. -/
theorem claim_C4_exclusivity (fi : ProcessItemsByBucket) (mt : StatsT)
    (lmm : List (Nat × List ProcessMod)) (amw : Bool) (so : List StatTypes)
    (sf : StatFiltersT) (gen : List ProcessMod → List (List ProcessMod))
    (can : List (List ProcessMod) → List (List ProcessMod) → List (List ProcessMod) →
      List ProcessItem → Bool)
    (hclass : ∀ ci ∈ fi.classitem, hasLabel ci = false) :
    ∀ s ∈ trackerFlatten (processFull fi mt lmm amw so sf gen can).finalTracker,
      labeledCount s.armor ≤ 1 := by
  obtain ⟨hfi, h0, hmain⟩ := processFull_spec fi mt lmm amw so sf gen can
  by_cases hz : bucketProduct (postTrimLists fi so sf) = 0
  · rw [h0 hz]
    intro s hs
    simp at hs
  · obtain ⟨cfg, -, -, -, -, heq⟩ := hmain hz
    rw [heq]
    refine (runEnumeration_inv (fun s => labeledCount s.armor ≤ 1) cfg
      (postTrimLists fi so sf).helmet (postTrimLists fi so sf).gauntlets
      (postTrimLists fi so sf).chest (postTrimLists fi so sf).leg
      (postTrimLists fi so sf).classitem ?_).2.2.2.2
    intro st combo hcombo hexc
    obtain ⟨hci, hc1, hc2, hc3⟩ := comboList_mem _ _ _ _ _ combo hcombo
    refine labeledCount_le_one combo hc1 hc2 hc3 ?_
    apply hclass
    have : (postTrimLists fi so sf).classitem =
        sortByCmp (compareByStatOrder
          ((so.filter (fun k => !(sf.get k).ignored)).map statHashes)) fi.classitem := rfl
    rw [this] at hci
    exact (sortByCmp_mem _ _ _).mp hci

/-- Claim C4, witness: on a concrete run with unlabeled class items, the one
set the tracker ends up holding has at most one labelled item. -/
theorem claim_C4_witness :
    labeledCount [plainItem "h" 0 0, plainItem "g" 0 0, plainItem "c" 0 0,
      plainItem "l" 0 0, plainItem "ci" 0 0] ≤ 1 :=
  claim_C4_exclusivity oneEachBucket mobHeavyModTotals [] false statOrderAll
    mobIgnoredFilters onePermutation alwaysCompatible (by decide)
    ⟨[plainItem "h" 0 0, plainItem "g" 0 0, plainItem "c" 0 0, plainItem "l" 0 0,
      plainItem "ci" 0 0], ⟨150, 0, 0, 0, 0, 0⟩⟩ (List.Mem.head _)

theorem considerLoop_le_preserved (filters : StatFiltersT) (orderLen : Nat) :
    ∀ (ks : List StatTypes) (index : Nat) (stats : StatsT) (ranges : StatRangesT)
      (tiers : String) (total : Int) (k : StatTypes), stats.get k ≤ 100 →
      (considerLoop filters orderLen ks index stats ranges tiers total).stats.get k ≤ 100 := by
  intro ks
  induction ks with
  | nil => intro index stats ranges tiers total k hk; exact hk
  | cons k2 rest ih =>
    intro index stats ranges tiers total k hk
    have hpres : ∀ s2 : StatsT, s2 = (if stats.get k2 > 100 then stats.set k2 100 else stats) →
        s2.get k ≤ 100 := by
      intro s2 hs2
      rw [hs2]
      split
      · by_cases hkk : k = k2
        · rw [hkk, statsGetSetSelf]
        · rw [statsGetSetOther _ _ _ _ hkk]
          exact hk
      · exact hk
    simp only [considerLoop]
    split
    · split
      · exact hpres _ (by rename_i hcl _; simp [hcl])
      · exact ih _ _ _ _ _ k (hpres _ (by rename_i hcl _; simp [hcl]))
    · split
      · exact hpres _ (by rename_i hcl _; simp [hcl])
      · exact ih _ _ _ _ _ k (hpres _ (by rename_i hcl _; simp [hcl]))

theorem considerLoop_clamped (filters : StatFiltersT) (orderLen : Nat) :
    ∀ (ks : List StatTypes) (index : Nat) (stats : StatsT) (ranges : StatRangesT)
      (tiers : String) (total : Int),
      (considerLoop filters orderLen ks index stats ranges tiers total).exceeded = false →
      ∀ k ∈ ks,
        (considerLoop filters orderLen ks index stats ranges tiers total).stats.get k ≤ 100 := by
  intro ks
  induction ks with
  | nil => intro index stats ranges tiers total hexc k hk; simp at hk
  | cons k2 rest ih =>
    intro index stats ranges tiers total hexc k hk
    rw [List.mem_cons] at hk
    by_cases hcl : stats.get k2 > 100
    · by_cases hviol : statTier ((stats.set k2 100).get k2) > (filters.get k2).max ∨
          statTier ((stats.set k2 100).get k2) < (filters.get k2).min
      · simp only [considerLoop] at hexc
        simp [hcl, hviol] at hexc
      · simp only [considerLoop] at hexc ⊢
        simp only [hcl, if_true, ite_true, if_pos] at hexc ⊢
        simp [hviol] at hexc ⊢
        rcases hk with hk | hk
        · rw [hk]
          exact considerLoop_le_preserved filters orderLen rest _ _ _ _ _ k2
            (by rw [statsGetSetSelf])
        · exact ih _ _ _ _ _ hexc k hk
    · by_cases hviol : statTier (stats.get k2) > (filters.get k2).max ∨
          statTier (stats.get k2) < (filters.get k2).min
      · simp only [considerLoop] at hexc
        simp [hcl, hviol] at hexc
      · simp only [considerLoop] at hexc ⊢
        simp [hcl, hviol] at hexc ⊢
        rcases hk with hk | hk
        · rw [hk]
          exact considerLoop_le_preserved filters orderLen rest _ _ _ _ _ k2 (by omega)
        · exact ih _ _ _ _ _ hexc k hk

/-- Claim C7, amended: in every armor set returned by `process`, every
considered stat — one that is in the stat order and not ignored — is at most
100; the clamp sits inside the considered-stat loop, so ignored stats are not
clamped. -/
theorem claim_C7_clamp_amended (fi : ProcessItemsByBucket) (mt : StatsT)
    (lmm : List (Nat × List ProcessMod)) (amw : Bool) (so : List StatTypes)
    (sf : StatFiltersT) (gen : List ProcessMod → List (List ProcessMod))
    (can : List (List ProcessMod) → List (List ProcessMod) → List (List ProcessMod) →
      List ProcessItem → Bool) :
    ∀ s ∈ (process fi mt lmm amw so sf gen can).sets, ∀ k : StatTypes,
      k ∈ so → (sf.get k).ignored = false → s.stats.get k ≤ 100 := by
  obtain ⟨hfi, h0, hmain⟩ := processFull_spec fi mt lmm amw so sf gen can
  rw [process_sets_eq]
  by_cases hz : bucketProduct (postTrimLists fi so sf) = 0
  · rw [h0 hz]
    intro s hs
    simp at hs
  · obtain ⟨cfg, hcmt, hcso, hcsf, hcamw, heq⟩ := hmain hz
    rw [heq]
    intro s hs k hk hkig
    simp only [flattenSets, List.mem_map] at hs
    obtain ⟨x, hx, hxs⟩ := hs
    have hinv := (runEnumeration_inv
      (fun x => ∀ k : StatTypes, k ∈ cfg.statOrder →
        (cfg.statFilters.get k).ignored = false → x.stats.get k ≤ 100) cfg
      (postTrimLists fi so sf).helmet (postTrimLists fi so sf).gauntlets
      (postTrimLists fi so sf).chest (postTrimLists fi so sf).leg
      (postTrimLists fi so sf).classitem ?_).2.2.2.2 x hx
    · rw [← hxs]
      exact hinv k (by rw [hcso]; exact hk) (by rw [hcsf]; exact hkig)
    · intro st combo hcombo hexc k2 hk2 hk2ig
      show (considerScan cfg (comboStats cfg combo.armor) st.statRanges).stats.get k2 ≤ 100
      refine considerLoop_clamped cfg.statFilters cfg.statOrder.length
        cfg.orderedConsideredStats 0 (comboStats cfg combo.armor) st.statRanges "" 0
        hexc k2 ?_
      rw [ProcessCfg.orderedConsideredStats, List.mem_filter]
      exact ⟨hk2, by rw [hk2ig]; rfl⟩

/-- Claim C7, witness: the single returned set of a concrete run has its
considered Resilience stat at most 100, via the amended theorem at that
input. -/
theorem claim_C7_witness :
    (ProcessArmorSet.mk ["h", "g", "c", "l", "ci"] ⟨0, 0, 0, 0, 0, 0⟩).stats.get
      .Resilience ≤ 100 :=
  claim_C7_clamp_amended oneEachBucket zeroStats [] false statOrderAll
    mobIgnoredFilters onePermutation alwaysCompatible
    ⟨["h", "g", "c", "l", "ci"], ⟨0, 0, 0, 0, 0, 0⟩⟩ (by decide) .Resilience
    (by decide) (by decide)

theorem considerLoop_ranges (filters : StatFiltersT) (orderLen : Nat) :
    ∀ (ks : List StatTypes) (index : Nat) (stats : StatsT) (ranges : StatRangesT)
      (tiers : String) (total : Int),
      (considerLoop filters orderLen ks index stats ranges tiers total).ranges =
        (scanEvalTiers filters ks stats).foldl rangeUpd ranges := by
  intro ks
  induction ks with
  | nil => intro index stats ranges tiers total; rfl
  | cons k2 rest ih =>
    intro index stats ranges tiers total
    by_cases hcl : stats.get k2 > 100
    · by_cases hviol : statTier ((stats.set k2 100).get k2) > (filters.get k2).max ∨
          statTier ((stats.set k2 100).get k2) < (filters.get k2).min
      · simp only [considerLoop, scanEvalTiers]
        simp [hcl, hviol, rangeUpd]
      · simp only [considerLoop, scanEvalTiers]
        simp [hcl, hviol, rangeUpd, ih]
    · by_cases hviol : statTier (stats.get k2) > (filters.get k2).max ∨
          statTier (stats.get k2) < (filters.get k2).min
      · simp only [considerLoop, scanEvalTiers]
        simp [hcl, hviol, rangeUpd]
      · simp only [considerLoop, scanEvalTiers]
        simp [hcl, hviol, rangeUpd, ih]

theorem processCombo_ranges (cfg : ProcessCfg) (st : LoopState) (combo : Combo) :
    (processCombo cfg st combo).statRanges =
      (comboEvalTiers cfg.modStatTotals cfg.statOrder cfg.statFilters
        cfg.assumeMasterwork combo).foldl rangeUpd st.statRanges := by
  have hscan : (considerScan cfg (comboStats cfg combo.armor) st.statRanges).ranges =
      (comboEvalTiers cfg.modStatTotals cfg.statOrder cfg.statFilters
        cfg.assumeMasterwork combo).foldl rangeUpd st.statRanges := by
    rw [considerScan, considerLoop_ranges]
    rfl
  simp only [processCombo]
  split
  · exact hscan
  · split
    · exact hscan
    · split
      · exact hscan
      · split
        · exact hscan
        · exact hscan

theorem foldl_ranges (cfg : ProcessCfg) :
    ∀ (l : List Combo) (st : LoopState),
      (l.foldl (processCombo cfg) st).statRanges =
        (l.flatMap (comboEvalTiers cfg.modStatTotals cfg.statOrder cfg.statFilters
          cfg.assumeMasterwork)).foldl rangeUpd st.statRanges := by
  intro l
  induction l with
  | nil => intro st; rfl
  | cons c rest ih =>
    intro st
    rw [List.foldl_cons, ih, List.flatMap_cons, List.foldl_append, processCombo_ranges]

theorem runEnumeration_ranges (cfg : ProcessCfg) (hs gs cs ls cis : List ProcessItem) :
    (runEnumeration processCombo cfg hs gs cs ls cis).statRanges =
      ((comboList hs gs cs ls cis).flatMap (comboEvalTiers cfg.modStatTotals
        cfg.statOrder cfg.statFilters cfg.assumeMasterwork)).foldl rangeUpd
        (initStatRanges cfg.statFilters) := by
  unfold runEnumeration
  rw [foldl_ranges]

theorem scanEvalTiers_keys (filters : StatFiltersT) :
    ∀ (ks : List StatTypes) (stats : StatsT) (p : StatTypes × Int),
      p ∈ scanEvalTiers filters ks stats → p.1 ∈ ks := by
  intro ks
  induction ks with
  | nil => intro stats p hp; simp [scanEvalTiers] at hp
  | cons k2 rest ih =>
    intro stats p hp
    simp only [scanEvalTiers] at hp
    split at hp
    · split at hp
      · simp only [List.mem_singleton] at hp
        rw [hp]
        exact List.mem_cons_self _ _
      · rcases List.mem_cons.mp hp with hp2 | hp2
        · rw [hp2]
          exact List.mem_cons_self _ _
        · exact List.mem_cons_of_mem _ (ih _ p hp2)
    · split at hp
      · simp only [List.mem_singleton] at hp
        rw [hp]
        exact List.mem_cons_self _ _
      · rcases List.mem_cons.mp hp with hp2 | hp2
        · rw [hp2]
          exact List.mem_cons_self _ _
        · exact List.mem_cons_of_mem _ (ih _ p hp2)

theorem rangeUpd_get_other (r : StatRangesT) (p : StatTypes × Int) (k : StatTypes)
    (h : p.1 ≠ k) : (rangeUpd r p).get k = r.get k := by
  simp only [rangeUpd]
  split
  · split
    · rw [rangesGetSetOther _ _ _ _ (Ne.symm h),
        rangesGetSetOther _ _ _ _ (Ne.symm h)]
    · rw [rangesGetSetOther _ _ _ _ (Ne.symm h)]
  · split
    · rw [rangesGetSetOther _ _ _ _ (Ne.symm h)]
    · rfl

theorem rangesFold_ignored : ∀ (ps : List (StatTypes × Int)) (r0 : StatRangesT)
    (k : StatTypes), (∀ p ∈ ps, p.1 ≠ k) → (ps.foldl rangeUpd r0).get k = r0.get k := by
  intro ps
  induction ps with
  | nil => intro r0 k h; rfl
  | cons p rest ih =>
    intro r0 k h
    rw [List.foldl_cons, ih _ _ (fun q hq => h q (List.mem_cons_of_mem _ hq)),
      rangeUpd_get_other _ _ _ (h p (List.mem_cons_self _ _))]

theorem initStatRanges_ignored (sf : StatFiltersT) (k : StatTypes)
    (h : (sf.get k).ignored = true) : (initStatRanges sf).get k = ⟨0, 10⟩ := by
  cases k <;> simp_all [initStatRanges, StatRangesT.get, StatFiltersT.get]

/-- Claim C5, amended: when stat ranges are returned, the range of every
ignored stat is exactly {min 0, max 10}, and the ranges are precisely the fold
of the tiers evaluated by the fail-fast scans — for each reached combination,
the considered stats in priority order up to and including the first tier that
violates its filter — over the inverted initial ranges. -/
theorem claim_C5_ranges_amended (fi : ProcessItemsByBucket) (mt : StatsT)
    (lmm : List (Nat × List ProcessMod)) (amw : Bool) (so : List StatTypes)
    (sf : StatFiltersT) (gen : List ProcessMod → List (List ProcessMod))
    (can : List (List ProcessMod) → List (List ProcessMod) → List (List ProcessMod) →
      List ProcessItem → Bool) (r : StatRangesT)
    (h : (processFull fi mt lmm amw so sf gen can).statRanges = some r) :
    (∀ k : StatTypes, (sf.get k).ignored = true → r.get k = ⟨0, 10⟩) ∧
    r = ((comboList (processFull fi mt lmm amw so sf gen can).finalItems.helmet
          (processFull fi mt lmm amw so sf gen can).finalItems.gauntlets
          (processFull fi mt lmm amw so sf gen can).finalItems.chest
          (processFull fi mt lmm amw so sf gen can).finalItems.leg
          (processFull fi mt lmm amw so sf gen can).finalItems.classitem).flatMap
        (comboEvalTiers mt so sf amw)).foldl rangeUpd (initStatRanges sf) := by
  obtain ⟨hfi, h0, hmain⟩ := processFull_spec fi mt lmm amw so sf gen can
  by_cases hz : bucketProduct (postTrimLists fi so sf) = 0
  · rw [h0 hz] at h
    simp at h
  · obtain ⟨cfg, hcmt, hcso, hcsf, hcamw, heq⟩ := hmain hz
    rw [heq] at h ⊢
    simp only at h
    rw [runEnumeration_ranges, hcmt, hcso, hcsf, hcamw] at h
    rw [Option.some_inj] at h
    subst h
    refine ⟨?_, rfl⟩
    intro k hk
    rw [rangesFold_ignored _ _ _ ?_, initStatRanges_ignored sf k hk]
    intro p hp
    rw [List.mem_flatMap] at hp
    obtain ⟨c, hc, hp⟩ := hp
    have := scanEvalTiers_keys sf _ _ p hp
    rw [List.mem_filter] at this
    intro hpk
    rw [hpk] at this
    rw [hk] at this
    simp at this

/-- Claim C5, witness: a concrete run (Mobility ignored, everything else
considered, all stats zero) returns ranges whose Mobility entry is the fixed
{0, 10}, via the amended theorem. -/
theorem claim_C5_witness :
    (StatRangesT.mk ⟨0, 10⟩ ⟨0, 0⟩ ⟨0, 0⟩ ⟨0, 0⟩ ⟨0, 0⟩ ⟨0, 0⟩).get .Mobility = ⟨0, 10⟩ :=
  (claim_C5_ranges_amended oneEachBucket zeroStats [] false statOrderAll
    mobIgnoredFilters onePermutation alwaysCompatible
    ⟨⟨0, 10⟩, ⟨0, 0⟩, ⟨0, 0⟩, ⟨0, 0⟩, ⟨0, 0⟩, ⟨0, 0⟩⟩ (by decide)).1 .Mobility (by decide)

theorem trimStep_min (h g c l : List ProcessItem) :
    (trimStep h g c l = (h.dropLast, g, c, l) ∧
      lastTotalStat h ≤ lastTotalStat g ∧ lastTotalStat h ≤ lastTotalStat c ∧
      lastTotalStat h ≤ lastTotalStat l) ∨
    (trimStep h g c l = (h, g.dropLast, c, l) ∧
      lastTotalStat g ≤ lastTotalStat h ∧ lastTotalStat g ≤ lastTotalStat c ∧
      lastTotalStat g ≤ lastTotalStat l) ∨
    (trimStep h g c l = (h, g, c.dropLast, l) ∧
      lastTotalStat c ≤ lastTotalStat h ∧ lastTotalStat c ≤ lastTotalStat g ∧
      lastTotalStat c ≤ lastTotalStat l) ∨
    (trimStep h g c l = (h, g, c, l.dropLast) ∧
      lastTotalStat l ≤ lastTotalStat h ∧ lastTotalStat l ≤ lastTotalStat g ∧
      lastTotalStat l ≤ lastTotalStat c) := by
  by_cases h1 : lastTotalStat g < lastTotalStat h
  · by_cases h2 : lastTotalStat c < lastTotalStat g
    · by_cases h3 : lastTotalStat l < lastTotalStat c
      · exact Or.inr (Or.inr (Or.inr
          ⟨by simp [trimStep, h1, h2, h3], by omega, by omega, by omega⟩))
      · exact Or.inr (Or.inr (Or.inl
          ⟨by simp [trimStep, h1, h2, h3], by omega, by omega, by omega⟩))
    · by_cases h3 : lastTotalStat l < lastTotalStat g
      · exact Or.inr (Or.inr (Or.inr
          ⟨by simp [trimStep, h1, h2, h3], by omega, by omega, by omega⟩))
      · exact Or.inr (Or.inl
          ⟨by simp [trimStep, h1, h2, h3], by omega, by omega, by omega⟩)
  · by_cases h2 : lastTotalStat c < lastTotalStat h
    · by_cases h3 : lastTotalStat l < lastTotalStat c
      · exact Or.inr (Or.inr (Or.inr
          ⟨by simp [trimStep, h1, h2, h3], by omega, by omega, by omega⟩))
      · exact Or.inr (Or.inr (Or.inl
          ⟨by simp [trimStep, h1, h2, h3], by omega, by omega, by omega⟩))
    · by_cases h3 : lastTotalStat l < lastTotalStat h
      · exact Or.inr (Or.inr (Or.inr
          ⟨by simp [trimStep, h1, h2, h3], by omega, by omega, by omega⟩))
      · exact Or.inl ⟨by simp [trimStep, h1, h2, h3], by omega, by omega, by omega⟩

theorem trimLoop_le (classLen : Nat) :
    ∀ (fuel : Nat) (h g c l : List ProcessItem),
      h.length + g.length + c.length + l.length ≤ fuel →
      (trimLoop fuel h g c l classLen).1.length *
        (trimLoop fuel h g c l classLen).2.1.length *
        (trimLoop fuel h g c l classLen).2.2.1.length *
        (trimLoop fuel h g c l classLen).2.2.2.length * classLen ≤ combosLimit := by
  intro fuel
  induction fuel with
  | zero =>
    intro h g c l hsum
    have hh : h.length = 0 := by omega
    simp only [trimLoop]
    split
    · rename_i hle
      exact hle
    · simp [hh]
  | succ fuel2 ih =>
    intro h g c l hsum
    simp only [trimLoop]
    split
    · rename_i hle
      exact hle
    · rename_i hgt
      have hh : h.length ≠ 0 := by
        intro h0
        exact hgt (by rw [h0]; simp [combosLimit])
      have hg2 : g.length ≠ 0 := by
        intro h0
        exact hgt (by rw [h0]; simp [combosLimit])
      have hc2 : c.length ≠ 0 := by
        intro h0
        exact hgt (by rw [h0]; simp [combosLimit])
      have hl2 : l.length ≠ 0 := by
        intro h0
        exact hgt (by rw [h0]; simp [combosLimit])
      refine ih _ _ _ _ ?_
      rcases trimStep_min h g c l with ⟨heq, -⟩ | ⟨heq, -⟩ | ⟨heq, -⟩ | ⟨heq, -⟩ <;>
        rw [heq] <;> simp [List.length_dropLast] <;> omega

/-- Claim C8: after the cap-trimming loop the product of the candidate-list
lengths is at most the ceiling of 2,000,000, and every removal the loop
performs pops the last item of a list whose last (weakest remaining) item has
the lowest total base-stat value among the four trimmable lists (lodash minBy,
first minimum on ties). -/
theorem claim_C8_trim (h g c l : List ProcessItem) (clen : Nat) :
    ((trimLists h g c l clen).1.length * (trimLists h g c l clen).2.1.length *
      (trimLists h g c l clen).2.2.1.length * (trimLists h g c l clen).2.2.2.length *
      clen ≤ combosLimit) ∧
    ((trimStep h g c l = (h.dropLast, g, c, l) ∧
      lastTotalStat h ≤ lastTotalStat g ∧ lastTotalStat h ≤ lastTotalStat c ∧
      lastTotalStat h ≤ lastTotalStat l) ∨
    (trimStep h g c l = (h, g.dropLast, c, l) ∧
      lastTotalStat g ≤ lastTotalStat h ∧ lastTotalStat g ≤ lastTotalStat c ∧
      lastTotalStat g ≤ lastTotalStat l) ∨
    (trimStep h g c l = (h, g, c.dropLast, l) ∧
      lastTotalStat c ≤ lastTotalStat h ∧ lastTotalStat c ≤ lastTotalStat g ∧
      lastTotalStat c ≤ lastTotalStat l) ∨
    (trimStep h g c l = (h, g, c, l.dropLast) ∧
      lastTotalStat l ≤ lastTotalStat h ∧ lastTotalStat l ≤ lastTotalStat g ∧
      lastTotalStat l ≤ lastTotalStat c)) :=
  ⟨by unfold trimLists; exact trimLoop_le clen _ h g c l (Nat.le_refl _),
    trimStep_min h g c l⟩

/-- Claim C9, amended: `combos` is the post-trim product and
`combosWithoutCaps` the pre-trim product whenever the post-trim product is
nonzero; when the post-trim product is zero (an empty slot, or trimming that
emptied a list), `process` returns sets = [], combos = 0 and
combosWithoutCaps = 0 regardless of the pre-trim product. -/
theorem claim_C9_counts_amended (fi : ProcessItemsByBucket) (mt : StatsT)
    (lmm : List (Nat × List ProcessMod)) (amw : Bool) (so : List StatTypes)
    (sf : StatFiltersT) (gen : List ProcessMod → List (List ProcessMod))
    (can : List (List ProcessMod) → List (List ProcessMod) → List (List ProcessMod) →
      List ProcessItem → Bool) :
    (bucketProduct (postTrimLists fi so sf) = 0 →
      process fi mt lmm amw so sf gen can = ⟨[], 0, 0, none⟩) ∧
    (bucketProduct (postTrimLists fi so sf) ≠ 0 →
      (process fi mt lmm amw so sf gen can).combos =
        bucketProduct (postTrimLists fi so sf) ∧
      (process fi mt lmm amw so sf gen can).combosWithoutCaps = bucketProduct fi) := by
  obtain ⟨hfi, h0, hmain⟩ := processFull_spec fi mt lmm amw so sf gen can
  constructor
  · intro hz
    simp only [process, h0 hz]
  · intro hz
    obtain ⟨cfg, -, -, -, -, heq⟩ := hmain hz
    constructor <;> simp only [process, heq]

/-- Claim C9, witness: on a one-item-per-slot input the amended theorem yields
combos equal to the post-trim product and combosWithoutCaps equal to the
pre-trim product. -/
theorem claim_C9_witness :
    (process oneEachBucket zeroStats [] false statOrderAll allIgnored
      onePermutation alwaysCompatible).combos =
      bucketProduct (postTrimLists oneEachBucket statOrderAll allIgnored) ∧
    (process oneEachBucket zeroStats [] false statOrderAll allIgnored
      onePermutation alwaysCompatible).combosWithoutCaps = bucketProduct oneEachBucket :=
  (claim_C9_counts_amended oneEachBucket zeroStats [] false statOrderAll allIgnored
    onePermutation alwaysCompatible).2 (by decide)
